import Mathlib

/-!
Verification of `src/backend/optimizer/plan/setrefs.c` (the final reference-
resolution pass of the planner) against its natural-language specification.

The embedding below translates the data model and the functions of setrefs.c
into Lean.  Conventions used throughout:

* Machine integers (`Index`, `AttrNumber`, `Oid`) become `Nat` or `Int`;
  attribute numbers are `Int` because system/pseudo columns are negative.
* `elog(ERROR, ...)` becomes an `Except Err` error.  `Assert(...)` is a
  compiled-out consistency check (absent in production builds, see the spec's
  error-handling section), so asserts are modelled as no-ops; where the code
  would dereference a null pointer after a failed assert (a crash), the
  embedding returns an error instead.
* The shared `PlannerGlobal` accumulator is threaded explicitly as a `Glob`
  value; every fixer has type `... → Glob → ... → Except Err (Glob × _)`.
* Catalog lookups (`get_opcode`, `SearchSysCache1(PROCOID, ...)`) are a
  `Catalog` parameter of pure lookup functions.
* The embedded expression language covers the constructors the plan fixers
  dispatch on: `Var`, `Const`, `OpExpr`, `FuncExpr`, `Aggref`,
  `PlaceHolderVar`.  Node types that the C code handles "by struct
  equivalence" with these (DistinctExpr, NullIfExpr, ...) are represented by
  the same constructor.  RelabelType, Grouping and GroupId are outside the
  fragment; the code paths special-casing them degenerate to the general path.
* Fields that carry no logic in this file (typmod, collation, varlevelsup,
  location) are elided.
-/

namespace Setrefs

/-- Sentinel varno "read from my right (inner) child", `INNER` in
    nodes/primnodes.h. -/
def INNER_VARNO : Nat := 65000

/-- Sentinel varno "read from my left (outer) child", `OUTER` in
    nodes/primnodes.h. -/
def OUTER_VARNO : Nat := 65001

/-- `FirstLowInvalidHeapAttributeNumber` from access/sysattr.h: attribute
    numbers at or below this denote CDB pseudo columns in this code. -/
def FirstLowInvalidHeapAttributeNumber : Int := -8

/-- `FirstBootstrapObjectId` from access/transam.h: OIDs below this belong to
    bootstrap (built-in) objects and are never tracked as dependencies. -/
def FirstBootstrapObjectId : Nat := 10000

/-- Type OID of `regclass` (catalog/pg_type.h). -/
def REGCLASSOID : Nat := 2205

/-- Type OID of `oid` (catalog/pg_type.h). -/
def OIDOID : Nat := 26

/-- `InvalidOid`. -/
def InvalidOid : Nat := 0

/-- A variable reference (`Var` of primnodes.h): relation slot `varno`,
    attribute position `varattno`, its type OID, and the diagnostics-only
    original pair `varnoold`/`varoattno` never consulted by the executor. -/
structure PgVar where
  varno : Nat
  varattno : Int
  vartype : Nat
  varnoold : Nat
  varoattno : Int
deriving DecidableEq, Repr

/-- The expression fragment that setrefs.c dispatches on.  `funcretset` /
    `opretset` mark set-returning invocations; `opfuncid` is the operator's
    implementation handle, `InvalidOid` (0) until resolved. -/
inductive Expr where
  | var (v : PgVar)
  | const (consttype : Nat) (constvalue : Nat) (constisnull : Bool)
  | opExpr (opno : Nat) (opfuncid : Nat) (opresulttype : Nat) (opretset : Bool)
      (args : List Expr)
  | funcExpr (funcid : Nat) (funcresulttype : Nat) (funcretset : Bool)
      (args : List Expr)
  | aggref (aggfnoid : Nat) (aggtype : Nat) (args : List Expr)
  | placeHolderVar (phexpr : Expr)
deriving Repr

/- Structural expression equality — the embedding of `equal()` from
   nodes/equalfuncs.c on this fragment (full per-field comparison). -/
mutual
def equalExpr : Expr → Expr → Bool
  | .var v, .var w => v == w
  | .const a b c, .const a' b' c' => a == a' && b == b' && c == c'
  | .opExpr a b c d args, .opExpr a' b' c' d' args' =>
      a == a' && b == b' && c == c' && d == d' && equalExprList args args'
  | .funcExpr a b c args, .funcExpr a' b' c' args' =>
      a == a' && b == b' && c == c' && equalExprList args args'
  | .aggref a b args, .aggref a' b' args' =>
      a == a' && b == b' && equalExprList args args'
  | .placeHolderVar e, .placeHolderVar e' => equalExpr e e'
  | _, _ => false

def equalExprList : List Expr → List Expr → Bool
  | [], [] => true
  | e :: es, e' :: es' => equalExpr e e' && equalExprList es es'
  | _, _ => false
end


/-- One output column (`TargetEntry`): expression, 1-based output position
    `resno`, display label data (`resname` as an opaque name id,
    `resorigtbl`/`resorigcol` source provenance), sort/group tag, junk flag. -/
structure TargetEntry where
  expr : Expr
  resno : Nat
  resname : Option Nat
  ressortgroupref : Nat
  resorigtbl : Nat
  resorigcol : Int
  resjunk : Bool
deriving Repr

/-- Range-table entry kinds of the embedded fragment.  Entries of these kinds
    carry no `funcexpr`/`values_lists`/`joinaliasvars` substructure, so the
    three discarded `fix_scan_expr` calls in `set_plan_references`'s flattening
    loop are no-ops on them and are omitted from the embedding. -/
inductive RTEKind where
  | relation
  | subquery
  | cte
deriving DecidableEq, Repr

/-- A range-table entry: its kind, the relation OID (meaningful for
    `relation` entries), and the CDB pseudo-column definitions.
    `pseudocols.get i` is the defining expression of the pseudo column with
    attribute number `FirstLowInvalidHeapAttributeNumber - i`. -/
structure RangeTblEntry where
  rtekind : RTEKind
  relid : Nat
  pseudocols : List Expr
deriving Repr

/-- A row-lock descriptor (`PlanRowMark`): the two relation slots shifted by
    flattening, and the user-visible lock identifier which is never shifted. -/
structure PlanRowMark where
  rti : Nat
  prti : Nat
  rowmarkId : Nat
deriving DecidableEq, Repr

/-- The global planning context (`PlannerGlobal`), restricted to the fields
    setrefs.c reads or writes: the append-only flattened range table, the
    flattened row-lock list, the relation-dependency set (`relationOids`) and
    the function-dependency set (`invalItems`, storing the catalog tuple ids
    of the depended-on functions).  `paramlist`/`resultRelations`/`share` are
    outside the embedded fragment (no ModifyTable / ShareInputScan nodes). -/
structure Glob where
  finalrtable : List RangeTblEntry
  finalrowmarks : List PlanRowMark
  relationOids : List Nat
  invalItems : List Nat
deriving Repr

/-- The catalog, consumed through the two narrow lookups this pass needs:
    `get_opcode` (operator OID → implementing function OID) and
    `SearchSysCache1(PROCOID, funcid)` (function OID → its catalog tuple id
    `t_self`, `none` when the lookup fails). -/
structure Catalog where
  getOpcode : Nat → Nat
  procLookup : Nat → Option Nat

/-- Fatal conditions (`elog(ERROR, ...)` calls and crashes-after-failed-assert)
    reachable in the embedded fragment, plus fuel exhaustion of the plan
    recursion. -/
inductive Err where
  | varNotFoundJoin
  | varNotFoundUpper
  | cacheLookupFailed (funcid : Nat)
  | pseudoColumnNotFound
  | malformedHashclause
  | outOfFuel
deriving DecidableEq, Repr

/-- `exprType` (nodes/nodeFuncs.c) on the embedded fragment. -/
def exprTypeOf : Expr → Nat
  | .var v => v.vartype
  | .const ty _ _ => ty
  | .opExpr _ _ rty _ _ => rty
  | .funcExpr _ rty _ _ => rty
  | .aggref _ aty _ => aty
  | .placeHolderVar e => exprTypeOf e

/- Modelled from the spec: `expression_returns_set` of optimizer/util/clauses.c
   (not under src/) — true when the expression could invoke a
   variable-cardinality ("set-returning") invocation; aggregate invocations
   are not descended into. -/
mutual
def exprReturnsSet : Expr → Bool
  | .var _ => false
  | .const _ _ _ => false
  | .opExpr _ _ _ retset args => retset || exprListReturnsSet args
  | .funcExpr _ _ retset args => retset || exprListReturnsSet args
  | .aggref _ _ _ => false
  | .placeHolderVar e => exprReturnsSet e

def exprListReturnsSet : List Expr → Bool
  | [] => false
  | e :: es => exprReturnsSet e || exprListReturnsSet es
end

/-- `ISREGCLASSCONST`: a non-null constant typed `regclass` (or plain `oid`,
    into which regclass constants get folded). -/
def isRegclassConst (consttype : Nat) (constisnull : Bool) : Bool :=
  (consttype == REGCLASSOID || consttype == OIDOID) && !constisnull

/-- `record_plan_function_dependency`: add the function's catalog tuple id to
    the function-dependency set, except for built-ins (OID below
    `FirstBootstrapObjectId`), which are never tracked.  A failed catalog
    lookup is fatal. -/
def recordPlanFunctionDependency (cat : Catalog) (g : Glob) (funcid : Nat) :
    Except Err Glob :=
  if FirstBootstrapObjectId ≤ funcid then
    match cat.procLookup funcid with
    | none => .error (.cacheLookupFailed funcid)
    | some tself => .ok { g with invalItems := g.invalItems ++ [tself] }
  else
    .ok g

/-- `fix_expr_common`: per-node bookkeeping shared by all fixers — resolve the
    operator's implementation handle (`set_opfuncid`, idempotent), report
    routine/aggregate/window invocations to the dependency collector, and add
    relation OIDs of regclass constants to the relation-dependency set.
    Returns the (possibly opfuncid-updated) node together with the context. -/
def fixExprCommon (cat : Catalog) (g : Glob) (e : Expr) :
    Except Err (Glob × Expr) :=
  match e with
  | .aggref fid aty args => do
      let g' ← recordPlanFunctionDependency cat g fid
      .ok (g', .aggref fid aty args)
  | .funcExpr fid rty rs args => do
      let g' ← recordPlanFunctionDependency cat g fid
      .ok (g', .funcExpr fid rty rs args)
  | .opExpr opno fid rty rs args => do
      let fid' := if fid == InvalidOid then cat.getOpcode opno else fid
      let g' ← recordPlanFunctionDependency cat g fid'
      .ok (g', .opExpr opno fid' rty rs args)
  | .const ty v isnull =>
      if isRegclassConst ty isnull then
        .ok ({ g with relationOids := g.relationOids ++ [v] },
             .const ty v isnull)
      else
        .ok (g, .const ty v isnull)
  | .var v => .ok (g, .var v)          -- only compiled-out asserts here
  | .placeHolderVar p => .ok (g, .placeHolderVar p)

/-- Constructor-preserving argument replacement: the node produced by
    `expression_tree_mutator` keeps every scalar field of the (possibly
    opfuncid-updated) input node and takes the mutated argument list. -/
def replaceArgs : Expr → List Expr → Expr
  | .opExpr a b c d _, args => .opExpr a b c d args
  | .funcExpr a b c _, args => .funcExpr a b c args
  | .aggref a b _, args => .aggref a b args
  | e, _ => e

/-- `rt_fetch(n, rtable)`: 1-based range-table access. -/
def rtFetch (rtable : List RangeTblEntry) (n : Nat) : Option RangeTblEntry :=
  if n = 0 then none else rtable.get? (n - 1)

/-- Modelled from the spec: `cdb_rte_find_pseudo_column` (cdb code not under
    src/) — fetch the defining expression of the pseudo column named by a
    sub-`FirstLowInvalidHeapAttributeNumber` attribute number of the given
    slot of the flattened range table. -/
def pseudoColLookup (g : Glob) (varno : Nat) (varattno : Int) : Option Expr :=
  match rtFetch g.finalrtable varno with
  | none => none
  | some rte =>
      let i := FirstLowInvalidHeapAttributeNumber - varattno
      if i < 0 then none else rte.pseudocols.get? i.toNat

/- `fix_scan_expr_walker`: walk an expression doing only `fix_expr_common`
   bookkeeping at every node — resolving operator implementation ids and
   recording dependencies — without rewriting any Var.  (Used on the copied
   defining expression of a pseudo column.)  The returned expression is the
   input with opfuncids filled in. -/
mutual
def fixScanExprWalker (cat : Catalog) (g : Glob) :
    Expr → Except Err (Glob × Expr)
  | .var v => fixExprCommon cat g (.var v)
  | .const a b c => fixExprCommon cat g (.const a b c)
  | .opExpr a b c d args => do
      let (g1, e1) ← fixExprCommon cat g (.opExpr a b c d args)
      let (g2, args') ← fixScanExprWalkerList cat g1 args
      .ok (g2, replaceArgs e1 args')
  | .funcExpr a b c args => do
      let (g1, e1) ← fixExprCommon cat g (.funcExpr a b c args)
      let (g2, args') ← fixScanExprWalkerList cat g1 args
      .ok (g2, replaceArgs e1 args')
  | .aggref a b args => do
      let (g1, e1) ← fixExprCommon cat g (.aggref a b args)
      let (g2, args') ← fixScanExprWalkerList cat g1 args
      .ok (g2, replaceArgs e1 args')
  | .placeHolderVar p => do
      -- Assert(!IsA(node, PlaceHolderVar)) is compiled out; the walk descends
      let (g1, p') ← fixScanExprWalker cat g p
      .ok (g1, .placeHolderVar p')

def fixScanExprWalkerList (cat : Catalog) (g : Glob) :
    List Expr → Except Err (Glob × List Expr)
  | [] => .ok (g, [])
  | e :: es => do
      let (g1, e') ← fixScanExprWalker cat g e
      let (g2, es') ← fixScanExprWalkerList cat g1 es
      .ok (g2, e' :: es')
end

/- `fix_scan_expr_mutator`: scan-level expression fixing — increment every
   Var's relation slot (and positive `varnoold`) by `rtoffset`, replace a
   pseudo-column Var by the walker-processed copy of its defining expression,
   evaluate PlaceHolderVars in place, and do `fix_expr_common` bookkeeping on
   every other node.  GPDB mutates unconditionally, even at rtoffset 0. -/
mutual
def fixScanExprMutator (cat : Catalog) (rtoffset : Nat) (g : Glob) :
    Expr → Except Err (Glob × Expr)
  | .var v =>
      -- copyVar; Assert(varlevelsup = 0), Assert(varno not a sentinel) are
      -- compiled out
      let v1 : PgVar :=
        { v with varno := v.varno + rtoffset,
                 varnoold := if 0 < v.varnoold then v.varnoold + rtoffset
                             else v.varnoold }
      if v1.varattno ≤ FirstLowInvalidHeapAttributeNumber then
        -- pseudo column: look up its definition and substitute a walked copy
        match pseudoColLookup g v1.varno v1.varattno with
        | none => .error .pseudoColumnNotFound
        | some defexpr => fixScanExprWalker cat g defexpr
      else
        .ok (g, .var v1)
  | .placeHolderVar p =>
      -- at scan level, always just evaluate the contained expression
      fixScanExprMutator cat rtoffset g p
  | .const a b c => fixExprCommon cat g (.const a b c)
  | .opExpr a b c d args => do
      let (g1, e1) ← fixExprCommon cat g (.opExpr a b c d args)
      let (g2, args') ← fixScanExprMutatorList cat rtoffset g1 args
      .ok (g2, replaceArgs e1 args')
  | .funcExpr a b c args => do
      let (g1, e1) ← fixExprCommon cat g (.funcExpr a b c args)
      let (g2, args') ← fixScanExprMutatorList cat rtoffset g1 args
      .ok (g2, replaceArgs e1 args')
  | .aggref a b args => do
      let (g1, e1) ← fixExprCommon cat g (.aggref a b args)
      let (g2, args') ← fixScanExprMutatorList cat rtoffset g1 args
      .ok (g2, replaceArgs e1 args')

def fixScanExprMutatorList (cat : Catalog) (rtoffset : Nat) (g : Glob) :
    List Expr → Except Err (Glob × List Expr)
  | [] => .ok (g, [])
  | e :: es => do
      let (g1, e') ← fixScanExprMutator cat rtoffset g e
      let (g2, es') ← fixScanExprMutatorList cat rtoffset g1 es
      .ok (g2, e' :: es')
end

/-- `fix_scan_list` applied to a target list: the tree mutation of a
    TargetEntry flat-copies the entry and mutates its expression. -/
def fixScanTargetList (cat : Catalog) (rtoffset : Nat) (g : Glob) :
    List TargetEntry → Except Err (Glob × List TargetEntry)
  | [] => .ok (g, [])
  | tle :: rest => do
      let (g1, e') ← fixScanExprMutator cat rtoffset g tle.expr
      let (g2, rest') ← fixScanTargetList cat rtoffset g1 rest
      .ok (g2, { tle with expr := e' } :: rest')

/-- One entry of the ephemeral per-child variable index (`tlist_vinfo`). -/
structure TlistVinfo where
  varno : Nat
  varattno : Int
  resno : Nat
deriving DecidableEq, Repr

/-- The ephemeral per-child lookup structure (`indexed_tlist`): the underlying
    target list, the array of plain-Var entries in list order, and the flags
    enabling placeholder and whole-expression fallback matching. -/
structure IndexedTlist where
  tlist : List TargetEntry
  vars : List TlistVinfo
  has_ph_vars : Bool
  has_non_vars : Bool
deriving Repr

/-- The scan of `build_tlist_index` over the entries, front to back: plain
    Vars are indexed, PlaceHolderVar entries set `has_ph_vars`, anything else
    sets `has_non_vars`.  (RelabelType stripping is outside the fragment.) -/
def buildTlistIndexInfo : List TargetEntry → List TlistVinfo × Bool × Bool
  | [] => ([], false, false)
  | tle :: rest =>
      let (vs, ph, nv) := buildTlistIndexInfo rest
      match tle.expr with
      | .var v =>
          ({ varno := v.varno, varattno := v.varattno, resno := tle.resno }
             :: vs, ph, nv)
      | .placeHolderVar _ => (vs, true, nv)
      | _ => (vs, ph, true)

/-- `build_tlist_index`. -/
def buildTlistIndex (tlist : List TargetEntry) : IndexedTlist :=
  let (vs, ph, nv) := buildTlistIndexInfo tlist
  { tlist := tlist, vars := vs, has_ph_vars := ph, has_non_vars := nv }

/-- `search_indexed_tlist_for_var`: first index entry with the Var's
    (relation, attribute) pair; on a match return a copy of the Var re-aimed
    at (`newvarno`, entry position), with positive `varnoold` shifted by
    `rtoffset`. -/
def searchIndexedTlistForVar (var : PgVar) (itlist : IndexedTlist)
    (newvarno : Nat) (rtoffset : Nat) : Option PgVar :=
  match itlist.vars.find?
      (fun vi => vi.varno == var.varno && vi.varattno == var.varattno) with
  | none => none
  | some vi =>
      some { var with varno := newvarno, varattno := (vi.resno : Int),
                      varnoold := if 0 < var.varnoold
                                  then var.varnoold + rtoffset
                                  else var.varnoold }

/-- `tlist_member` (optimizer/util/tlist.c): first entry whose expression is
    structurally equal to the node. -/
def tlistMember (node : Expr) (tlist : List TargetEntry) :
    Option TargetEntry :=
  tlist.find? (fun tle => equalExpr node tle.expr)

/-- `makeVarFromTargetEntry(newvarno, tle)` with the `varnoold := 0`,
    `varoattno := 0` ("wasn't ever a plain Var") adjustment both call sites
    apply immediately afterwards. -/
def makeVarFromTargetEntry (newvarno : Nat) (tle : TargetEntry) : PgVar :=
  { varno := newvarno, varattno := (tle.resno : Int),
    vartype := exprTypeOf tle.expr, varnoold := 0, varoattno := 0 }

/-- `search_indexed_tlist_for_non_var`: whole-expression match against the raw
    target list; on a match, a Var aimed at the matching position. -/
def searchIndexedTlistForNonVar (node : Expr) (itlist : IndexedTlist)
    (newvarno : Nat) : Option PgVar :=
  match tlistMember node itlist.tlist with
  | some tle => some (makeVarFromTargetEntry newvarno tle)
  | none => none

/-- `search_indexed_tlist_for_sortgroupref`: match by shared sort/group tag
    (plus a paranoid structural-equality check). -/
def searchIndexedTlistForSortgroupref (node : Expr) (sortgroupref : Nat)
    (itlist : IndexedTlist) (newvarno : Nat) : Option PgVar :=
  match itlist.tlist.find?
      (fun tle => tle.ressortgroupref == sortgroupref
                  && equalExpr node tle.expr) with
  | some tle => some (makeVarFromTargetEntry newvarno tle)
  | none => none

/-- `fix_join_expr_context`. -/
structure FixJoinCtx where
  outer_itlist : IndexedTlist
  inner_itlist : Option IndexedTlist
  acceptable_rel : Nat
  rtoffset : Nat
  use_outer_tlist_for_matching_nonvars : Bool
  use_inner_tlist_for_matching_nonvars : Bool

/-- The whole-expression fallback of `fix_join_expr_mutator` ("try matching
    more complex expressions too, if tlists have any"): the outer child's
    list is consulted when it has computed entries and the outer flag is on;
    then the inner child's, under the source's braceless `if` whose entire
    body is a second `if` repeating two of its three conjuncts (the
    duplicated conditional flagged in the spec — the guards nest, so the
    lookup still runs only when the inner flag is on). -/
def joinNonVarLookup (ctx : FixJoinCtx) (e : Expr) : Option PgVar :=
  match (if ctx.outer_itlist.has_non_vars
            && ctx.use_outer_tlist_for_matching_nonvars then
           searchIndexedTlistForNonVar e ctx.outer_itlist OUTER_VARNO
         else none) with
  | some nv => some nv
  | none =>
      if (match ctx.inner_itlist with
          | some itl => itl.has_non_vars
          | none => false)
         && ctx.use_inner_tlist_for_matching_nonvars then
        match ctx.inner_itlist with
        | some itl =>
            if itl.has_non_vars then
              searchIndexedTlistForNonVar e itl INNER_VARNO
            else none
        | none => none
      else none

/- `fix_join_expr_mutator`: match each Var first against the outer child's
   index, then the inner one; unmatched Vars of the acceptable relation pass
   through (with positive varnoold shifted), any other unmatched Var is fatal.
   PlaceHolderVars may be matched whole when a child exposes placeholder
   entries.  Other expressions may be matched whole against a child's raw list
   when that child has computed entries and the corresponding
   `use_*_tlist_for_matching_nonvars` flag permits; the source guards the
   inner lookup with a braceless `if` whose body is a second `if` repeating
   two of its conjuncts (the duplication flagged in the spec), which the
   nested conditionals below reproduce. -/
mutual
def fixJoinExprMutator (cat : Catalog) (ctx : FixJoinCtx) (g : Glob) :
    Expr → Except Err (Glob × Expr)
  | .var v =>
      match searchIndexedTlistForVar v ctx.outer_itlist OUTER_VARNO
          ctx.rtoffset with
      | some nv => .ok (g, .var nv)
      | none =>
        match (match ctx.inner_itlist with
               | some itl =>
                   searchIndexedTlistForVar v itl INNER_VARNO ctx.rtoffset
               | none => none) with
        | some nv => .ok (g, .var nv)
        | none =>
            if v.varno == ctx.acceptable_rel then
              .ok (g, .var { v with
                varnoold := if 0 < v.varnoold then v.varnoold + ctx.rtoffset
                            else v.varnoold })
            else
              .error .varNotFoundJoin
  | .placeHolderVar p =>
      match (if ctx.outer_itlist.has_ph_vars then
               searchIndexedTlistForNonVar (.placeHolderVar p)
                 ctx.outer_itlist OUTER_VARNO
             else none) with
      | some nv => .ok (g, .var nv)
      | none =>
        match (match ctx.inner_itlist with
               | some itl =>
                   if itl.has_ph_vars then
                     searchIndexedTlistForNonVar (.placeHolderVar p) itl
                       INNER_VARNO
                   else none
               | none => none) with
        | some nv => .ok (g, .var nv)
        | none => fixJoinExprMutator cat ctx g p
  | .const a b c =>
      match joinNonVarLookup ctx (.const a b c) with
      | some nv => .ok (g, .var nv)
      | none => fixExprCommon cat g (.const a b c)
  | .opExpr a b c d args =>
      match joinNonVarLookup ctx (.opExpr a b c d args) with
      | some nv => .ok (g, .var nv)
      | none => do
          let (g1, e1) ← fixExprCommon cat g (.opExpr a b c d args)
          let (g2, args') ← fixJoinExprMutatorList cat ctx g1 args
          .ok (g2, replaceArgs e1 args')
  | .funcExpr a b c args =>
      match joinNonVarLookup ctx (.funcExpr a b c args) with
      | some nv => .ok (g, .var nv)
      | none => do
          let (g1, e1) ← fixExprCommon cat g (.funcExpr a b c args)
          let (g2, args') ← fixJoinExprMutatorList cat ctx g1 args
          .ok (g2, replaceArgs e1 args')
  | .aggref a b args =>
      match joinNonVarLookup ctx (.aggref a b args) with
      | some nv => .ok (g, .var nv)
      | none => do
          let (g1, e1) ← fixExprCommon cat g (.aggref a b args)
          let (g2, args') ← fixJoinExprMutatorList cat ctx g1 args
          .ok (g2, replaceArgs e1 args')

def fixJoinExprMutatorList (cat : Catalog) (ctx : FixJoinCtx) (g : Glob) :
    List Expr → Except Err (Glob × List Expr)
  | [] => .ok (g, [])
  | e :: es => do
      let (g1, e') ← fixJoinExprMutator cat ctx g e
      let (g2, es') ← fixJoinExprMutatorList cat ctx g1 es
      .ok (g2, e' :: es')
end

/-- The context built by `fix_join_expr`: both fallback-matching flags on. -/
def fixJoinExprCtx (outer_itlist : IndexedTlist)
    (inner_itlist : Option IndexedTlist) (acceptable_rel rtoffset : Nat) :
    FixJoinCtx :=
  { outer_itlist, inner_itlist, acceptable_rel, rtoffset,
    use_outer_tlist_for_matching_nonvars := true,
    use_inner_tlist_for_matching_nonvars := true }

/-- `fix_join_expr` on a list of clause expressions. -/
def fixJoinExpr (cat : Catalog) (g : Glob) (clauses : List Expr)
    (outer_itlist : IndexedTlist) (inner_itlist : Option IndexedTlist)
    (acceptable_rel rtoffset : Nat) : Except Err (Glob × List Expr) :=
  fixJoinExprMutatorList cat
    (fixJoinExprCtx outer_itlist inner_itlist acceptable_rel rtoffset)
    g clauses

/-- `fix_join_expr` applied to a target list (joins fix their target lists
    with the same mutator; each entry is flat-copied with mutated expr). -/
def fixJoinTargetList (cat : Catalog) (ctx : FixJoinCtx) (g : Glob) :
    List TargetEntry → Except Err (Glob × List TargetEntry)
  | [] => .ok (g, [])
  | tle :: rest => do
      let (g1, e') ← fixJoinExprMutator cat ctx g tle.expr
      let (g2, rest') ← fixJoinTargetList cat ctx g1 rest
      .ok (g2, { tle with expr := e' } :: rest')

/-- The context built by `fix_child_hashclauses` for child = INNER or OUTER:
    whole-expression matching against the *other* child's list is switched
    off, so a hash key cannot come to depend on values of the side being
    probed. -/
def fixChildHashclausesCtx (outer_itlist : IndexedTlist)
    (inner_itlist : Option IndexedTlist) (acceptable_rel rtoffset : Nat)
    (child : Nat) : FixJoinCtx :=
  if child == INNER_VARNO then
    { outer_itlist, inner_itlist, acceptable_rel, rtoffset,
      use_outer_tlist_for_matching_nonvars := false,
      use_inner_tlist_for_matching_nonvars := true }
  else
    { outer_itlist, inner_itlist, acceptable_rel, rtoffset,
      use_inner_tlist_for_matching_nonvars := false,
      use_outer_tlist_for_matching_nonvars := true }

/-- `fix_child_hashclauses`, applied to one argument of a hash-equality
    clause (the call sites pass a single argument expression). -/
def fixChildHashclauses (cat : Catalog) (g : Glob) (clause : Expr)
    (outer_itlist : IndexedTlist) (inner_itlist : Option IndexedTlist)
    (acceptable_rel rtoffset : Nat) (child : Nat) :
    Except Err (Glob × Expr) :=
  fixJoinExprMutator cat
    (fixChildHashclausesCtx outer_itlist inner_itlist acceptable_rel rtoffset
      child)
    g clause

/-- `fix_hashclauses`: each clause is a binary OpExpr; its outer argument is
    fixed with inner-list fallback matching disabled and its inner argument
    with outer-list fallback matching disabled, then the OpExpr itself gets
    `fix_expr_common` bookkeeping.  A clause of any other shape would be
    dereferenced blindly after a compiled-out assert; the embedding returns an
    error for it. -/
def fixHashclauses (cat : Catalog) (g : Glob) (clauses : List Expr)
    (outer_itlist : IndexedTlist) (inner_itlist : Option IndexedTlist)
    (acceptable_rel rtoffset : Nat) : Except Err (Glob × List Expr) :=
  match clauses with
  | [] => .ok (g, [])
  | clause :: rest =>
      match clause with
      | .opExpr opno fid rty rs args =>
          match args with
          | [outerArg, innerArg] => do
              let (g1, newOuterArg) ← fixChildHashclauses cat g outerArg
                outer_itlist inner_itlist 0 rtoffset OUTER_VARNO
              let (g2, newInnerArg) ← fixChildHashclauses cat g1 innerArg
                outer_itlist inner_itlist 0 rtoffset INNER_VARNO
              let (g3, clause') ← fixExprCommon cat g2
                (.opExpr opno fid rty rs [newOuterArg, newInnerArg])
              let (g4, rest') ← fixHashclauses cat g3 rest outer_itlist
                inner_itlist acceptable_rel rtoffset
              .ok (g4, clause' :: rest')
          | _ => .error .malformedHashclause
      | _ => .error .malformedHashclause

/-- The whole-expression fallback of `fix_upper_expr_mutator`: consulted when
    the subplan's list has computed entries.  (The GroupId exemption is
    outside the fragment.) -/
def upperNonVarLookup (itlist : IndexedTlist) (e : Expr) : Option PgVar :=
  if itlist.has_non_vars then
    searchIndexedTlistForNonVar e itlist OUTER_VARNO
  else none

/- `fix_upper_expr_mutator`: every Var must resolve against the single
   child's index (unmatched is fatal, with no recovery path); PlaceHolderVars
   and, when the child has computed entries, whole expressions may be matched
   against the child's list. -/
mutual
def fixUpperExprMutator (cat : Catalog) (itlist : IndexedTlist)
    (rtoffset : Nat) (g : Glob) : Expr → Except Err (Glob × Expr)
  | .var v =>
      match searchIndexedTlistForVar v itlist OUTER_VARNO rtoffset with
      | some nv => .ok (g, .var nv)
      | none => .error .varNotFoundUpper
  | .placeHolderVar p =>
      match (if itlist.has_ph_vars then
               searchIndexedTlistForNonVar (.placeHolderVar p) itlist
                 OUTER_VARNO
             else none) with
      | some nv => .ok (g, .var nv)
      | none => fixUpperExprMutator cat itlist rtoffset g p
  | .const a b c =>
      match upperNonVarLookup itlist (.const a b c) with
      | some nv => .ok (g, .var nv)
      | none => fixExprCommon cat g (.const a b c)
  | .opExpr a b c d args =>
      match upperNonVarLookup itlist (.opExpr a b c d args) with
      | some nv => .ok (g, .var nv)
      | none => do
          let (g1, e1) ← fixExprCommon cat g (.opExpr a b c d args)
          let (g2, args') ← fixUpperExprMutatorList cat itlist rtoffset g1
            args
          .ok (g2, replaceArgs e1 args')
  | .funcExpr a b c args =>
      match upperNonVarLookup itlist (.funcExpr a b c args) with
      | some nv => .ok (g, .var nv)
      | none => do
          let (g1, e1) ← fixExprCommon cat g (.funcExpr a b c args)
          let (g2, args') ← fixUpperExprMutatorList cat itlist rtoffset g1
            args
          .ok (g2, replaceArgs e1 args')
  | .aggref a b args =>
      match upperNonVarLookup itlist (.aggref a b args) with
      | some nv => .ok (g, .var nv)
      | none => do
          let (g1, e1) ← fixExprCommon cat g (.aggref a b args)
          let (g2, args') ← fixUpperExprMutatorList cat itlist rtoffset g1
            args
          .ok (g2, replaceArgs e1 args')

def fixUpperExprMutatorList (cat : Catalog) (itlist : IndexedTlist)
    (rtoffset : Nat) (g : Glob) : List Expr → Except Err (Glob × List Expr)
  | [] => .ok (g, [])
  | e :: es => do
      let (g1, e') ← fixUpperExprMutator cat itlist rtoffset g e
      let (g2, es') ← fixUpperExprMutatorList cat itlist rtoffset g1 es
      .ok (g2, e' :: es')
end

/-- Is the expression a plain Var?  (`IsA(node, Var)`.) -/
def Expr.isVarNode : Expr → Bool
  | .var _ => true
  | _ => false

/-- The per-entry loop of `set_upper_references`: a tagged non-Var entry is
    matched by its sort/group tag first (so a value computed once by the
    subplan is referenced, not recomputed), falling back to ordinary upper
    fixing; every other entry is upper-fixed directly.  Each entry is
    flat-copied with the new expression.  (Grouping/GroupId entries are
    outside the fragment.) -/
def setUpperReferencesTl (cat : Catalog) (itlist : IndexedTlist)
    (rtoffset : Nat) (g : Glob) :
    List TargetEntry → Except Err (Glob × List TargetEntry)
  | [] => .ok (g, [])
  | tle :: rest => do
      let (g1, newexpr) ←
        if tle.ressortgroupref != 0 && !tle.expr.isVarNode then
          match searchIndexedTlistForSortgroupref tle.expr
              tle.ressortgroupref itlist OUTER_VARNO with
          | some nv => Except.ok (g, Expr.var nv)
          | none => fixUpperExprMutator cat itlist rtoffset g tle.expr
        else
          fixUpperExprMutator cat itlist rtoffset g tle.expr
      let (g2, rest') ← setUpperReferencesTl cat itlist rtoffset g1 rest
      .ok (g2, { tle with expr := newexpr } :: rest')

/-- `set_upper_references`: rebuild the node's target list and qual against
    the index of its single child's target list. -/
def setUpperReferences (cat : Catalog) (g : Glob) (tl : List TargetEntry)
    (qual : List Expr) (childTl : List TargetEntry) (rtoffset : Nat) :
    Except Err (Glob × List TargetEntry × List Expr) := do
  let itlist := buildTlistIndex childTl
  let (g1, tl') ← setUpperReferencesTl cat itlist rtoffset g tl
  let (g2, qual') ← fixUpperExprMutatorList cat itlist rtoffset g1 qual
  .ok (g2, tl', qual')

/-- `set_dummy_tlist_references`: replace the target list by pure OUTER
    references at each entry's declared position; a Var entry's old
    coordinates survive only in the diagnostics-only fields (shifted varno),
    any other entry gets zeros there ("wasn't ever a plain Var"). -/
def setDummyTlistReferences (tl : List TargetEntry) (rtoffset : Nat) :
    List TargetEntry :=
  tl.map (fun tle =>
    let newvar : PgVar :=
      { varno := OUTER_VARNO,
        varattno := (tle.resno : Int),
        vartype := exprTypeOf tle.expr,
        varnoold := match tle.expr with
                    | .var v => v.varno + rtoffset
                    | _ => 0,
        varoattno := match tle.expr with
                     | .var v => v.varattno
                     | _ => 0 }
    { tle with expr := .var newvar })

/-- The per-position loop of `trivial_subqueryscan` (`attrno` counts from 1):
    junk flags must agree, and each wrapper entry must be a Var whose
    attribute number is the position, or a Const structurally equal to the
    child's entry. -/
def trivialSubqueryscanTl : Int → List TargetEntry → List TargetEntry → Bool
  | _, [], [] => true
  | attrno, ptle :: ps, ctle :: cs =>
      if ptle.resjunk != ctle.resjunk then false
      else
        match ptle.expr with
        | .var v =>
            if v.varattno == attrno then trivialSubqueryscanTl (attrno + 1) ps cs
            else false
        | .const a b c =>
            if equalExpr (.const a b c) ctle.expr then
              trivialSubqueryscanTl (attrno + 1) ps cs
            else false
        | _ => false
  | _, _, _ => false

/-- `trivial_subqueryscan`: the wrapper can be deleted when it has no qual and
    its target list just regurgitates the child's output. -/
def trivialSubqueryscan (qual : List Expr) (ptl ctl : List TargetEntry) :
    Bool :=
  if !qual.isEmpty then false
  else if ptl.length != ctl.length then false
  else trivialSubqueryscanTl 1 ptl ctl

/-- The embedded plan-node fragment: representative scans (`seqScan` stands
    for the structurally equivalent SeqScan/AppendOnlyScan/AOCSScan/
    ExternalScan case; `cteScan` for the CteScan case), the subquery wrapper,
    nested-loop and hash joins, an upper node (`agg`), the passthrough family
    (`sort` stands for Sort/Hash/Material/Unique/SetOp), Append, and Result.
    Every constructor carries target list, qual, kind-specific fields, the
    initPlan list (opaque ids) and its children.  Plans in the fragment carry
    no Flow annotation. -/
inductive Plan where
  | seqScan (targetlist : List TargetEntry) (qual : List Expr)
      (scanrelid : Nat) (initPlan : List Nat)
  | cteScan (targetlist : List TargetEntry) (qual : List Expr)
      (scanrelid : Nat) (initPlan : List Nat)
  | subqueryScan (targetlist : List TargetEntry) (qual : List Expr)
      (scanrelid : Nat) (initPlan : List Nat) (subplan : Plan)
      (subrtable : List RangeTblEntry) (subrowmark : List PlanRowMark)
  | nestLoop (targetlist : List TargetEntry) (qual : List Expr)
      (joinqual : List Expr) (initPlan : List Nat)
      (lefttree righttree : Plan)
  | hashJoin (targetlist : List TargetEntry) (qual : List Expr)
      (joinqual hashclauses hashqualclauses : List Expr)
      (initPlan : List Nat) (lefttree righttree : Plan)
  | agg (targetlist : List TargetEntry) (qual : List Expr)
      (initPlan : List Nat) (lefttree : Plan)
  | sort (targetlist : List TargetEntry) (qual : List Expr)
      (initPlan : List Nat) (lefttree : Plan)
  | append (targetlist : List TargetEntry) (qual : List Expr)
      (initPlan : List Nat) (appendplans : List Plan)
  | result (targetlist : List TargetEntry) (qual : List Expr)
      (resconstantqual : Option Expr) (initPlan : List Nat)
      (lefttree : Option Plan)

/-- A node's target list. -/
def Plan.targetlist : Plan → List TargetEntry
  | .seqScan tl _ _ _ => tl
  | .cteScan tl _ _ _ => tl
  | .subqueryScan tl _ _ _ _ _ _ => tl
  | .nestLoop tl _ _ _ _ _ => tl
  | .hashJoin tl _ _ _ _ _ _ _ => tl
  | .agg tl _ _ _ => tl
  | .sort tl _ _ _ => tl
  | .append tl _ _ _ => tl
  | .result tl _ _ _ _ => tl

/-- Replace a node's target list, leaving every other field alone. -/
def Plan.withTargetlist : Plan → List TargetEntry → Plan
  | .seqScan _ q r ip, tl => .seqScan tl q r ip
  | .cteScan _ q r ip, tl => .cteScan tl q r ip
  | .subqueryScan _ q r ip s srt srm, tl => .subqueryScan tl q r ip s srt srm
  | .nestLoop _ q jq ip l r, tl => .nestLoop tl q jq ip l r
  | .hashJoin _ q jq hc hqc ip l r, tl => .hashJoin tl q jq hc hqc ip l r
  | .agg _ q ip l, tl => .agg tl q ip l
  | .sort _ q ip l, tl => .sort tl q ip l
  | .append _ q ip ps, tl => .append tl q ip ps
  | .result _ q rcq ip l, tl => .result tl q rcq ip l

/-- A node's initPlan list. -/
def Plan.initPlans : Plan → List Nat
  | .seqScan _ _ _ ip => ip
  | .cteScan _ _ _ ip => ip
  | .subqueryScan _ _ _ ip _ _ _ => ip
  | .nestLoop _ _ _ ip _ _ => ip
  | .hashJoin _ _ _ _ _ ip _ _ => ip
  | .agg _ _ ip _ => ip
  | .sort _ _ ip _ => ip
  | .append _ _ ip _ => ip
  | .result _ _ _ ip _ => ip

/-- Prepend initplans to a node (`list_concat(moved, node->initPlan)`). -/
def Plan.prependInitPlans : Plan → List Nat → Plan
  | .seqScan tl q r ip, ip0 => .seqScan tl q r (ip0 ++ ip)
  | .cteScan tl q r ip, ip0 => .cteScan tl q r (ip0 ++ ip)
  | .subqueryScan tl q r ip s srt srm, ip0 =>
      .subqueryScan tl q r (ip0 ++ ip) s srt srm
  | .nestLoop tl q jq ip l r, ip0 => .nestLoop tl q jq (ip0 ++ ip) l r
  | .hashJoin tl q jq hc hqc ip l r, ip0 =>
      .hashJoin tl q jq hc hqc (ip0 ++ ip) l r
  | .agg tl q ip l, ip0 => .agg tl q (ip0 ++ ip) l
  | .sort tl q ip l, ip0 => .sort tl q (ip0 ++ ip) l
  | .append tl q ip ps, ip0 => .append tl q (ip0 ++ ip) ps
  | .result tl q rcq ip l, ip0 => .result tl q rcq (ip0 ++ ip) l

/-- `cdb_expr_requires_full_eval` applied to a target list: true when some
    entry could invoke a set-returning expression. -/
def cdbExprRequiresFullEval (tl : List TargetEntry) : Bool :=
  exprListReturnsSet (tl.map (fun tle => tle.expr))

/- Modelled from the spec: `flatten_tlist`/`pull_var_clause`/
   `add_to_flat_tlist` (optimizer/util/tlist.c, not under src/) — the minimal
   set of plain variable references (PlaceHolderVars kept whole, aggregate
   arguments descended into) covering every value the original list needs,
   one entry per distinct atom, positions 1..n, no junk entries. -/
mutual
def pullVarAtoms : Expr → List Expr
  | .var v => [.var v]
  | .placeHolderVar p => [.placeHolderVar p]
  | .const _ _ _ => []
  | .opExpr _ _ _ _ args => pullVarAtomsList args
  | .funcExpr _ _ _ args => pullVarAtomsList args
  | .aggref _ _ args => pullVarAtomsList args

def pullVarAtomsList : List Expr → List Expr
  | [] => []
  | e :: es => pullVarAtoms e ++ pullVarAtomsList es
end

/-- Modelled from the spec: `flatten_tlist` (see `pullVarAtoms`). -/
def flattenTlist (tl : List TargetEntry) : List TargetEntry :=
  let atoms :=
    (pullVarAtomsList (tl.map (fun tle => tle.expr))).foldl
      (fun acc v => if acc.any (fun x => equalExpr x v) then acc
                    else acc ++ [v]) []
  atoms.enum.map (fun p =>
    { expr := p.2, resno := p.1 + 1, resname := none, ressortgroupref := 0,
      resorigtbl := 0, resorigcol := 0, resjunk := false })

/-- Modelled from the spec: `make_result(NULL, tlist, resconstantqual,
    subplan)` (createplan.c, not under src/) — a fresh Result projection node
    taking over the given target list, with no qual and no initplans. -/
def makeResultPlan (tl : List TargetEntry) (rcq : Option Expr)
    (subplan : Plan) : Plan :=
  .result tl [] rcq [] (some subplan)

/-- The range-table flattening loop of `set_plan_references`: append each
    entry (a display-trimmed copy) to the flattened table and add every plain
    relation entry's OID to the relation-dependency set — unconditionally,
    whether or not any operator still references it.  (Entries of the
    embedded kinds carry no funcexpr/values/join-alias substructure, so the
    discarded `fix_scan_expr` calls of the loop are no-ops on them.) -/
def flattenRtable (g : Glob) : List RangeTblEntry → Glob
  | [] => g
  | rte :: rest =>
      flattenRtable
        { g with
          finalrtable := g.finalrtable ++ [rte],
          relationOids :=
            if rte.rtekind == RTEKind.relation then
              g.relationOids ++ [rte.relid]
            else g.relationOids }
        rest

/-- The row-mark flattening loop of `set_plan_references`: both relation
    slots are shifted by the offset, the user-visible `rowmarkId` never. -/
def flattenRowmarks (g : Glob) (rtoffset : Nat) :
    List PlanRowMark → Glob
  | [] => g
  | rc :: rest =>
      flattenRowmarks
        { g with finalrowmarks := g.finalrowmarks ++
            [{ rc with rti := rc.rti + rtoffset,
                       prti := rc.prti + rtoffset }] }
        rtoffset rest

/-- The label merge of wrapper elimination: each child entry takes the
    wrapper entry's declared name and source provenance, so client-visible
    labels reflect the outer query. -/
def mergeLabels : List TargetEntry → List TargetEntry → List TargetEntry
  | ptle :: ps, ctle :: cs =>
      { ctle with resname := ptle.resname,
                  resorigtbl := ptle.resorigtbl,
                  resorigcol := ptle.resorigcol } :: mergeLabels ps cs
  | _, cs => cs

/-- The part of `set_subqueryscan_references` after the recursive subplan
    call: delete the wrapper when trivial (reattaching its initplans,
    prepended, and transferring per-position display labels onto the child),
    otherwise keep it, offsetting its own relation slot and scan-fixing its
    lists (its subrtable/subrowmark were already cleared). -/
def sqPostProcess (cat : Catalog) (g : Glob) (tl : List TargetEntry)
    (qual : List Expr) (scanrelid : Nat) (ip : List Nat) (sub' : Plan)
    (rtoffset : Nat) : Except Err (Glob × Plan) :=
  if trivialSubqueryscan qual tl sub'.targetlist then
    .ok (g, (sub'.withTargetlist
               (mergeLabels tl sub'.targetlist)).prependInitPlans ip)
  else do
    let (g1, tl') ← fixScanTargetList cat rtoffset g tl
    let (g2, qual') ← fixScanExprMutatorList cat rtoffset g1 qual
    .ok (g2, .subqueryScan tl' qual' (scanrelid + rtoffset) ip sub' [] [])

/- `set_plan_refs` / `set_plan_references` / `cdb_insert_result_node`.  The
   guard's wrapper injection recurses on a freshly built node, so the
   recursion is not structural in the plan; a fuel parameter bounds the
   depth, with exhaustion reported as an error.  Assert statements are
   compiled out; `elog(ERROR, ...)` calls surface as errors from the
   expression fixers. -/
mutual
def setPlanRefs (fuel : Nat) (cat : Catalog) (g : Glob) (plan : Plan)
    (rtoffset : Nat) : Except Err (Glob × Plan) :=
  match fuel with
  | 0 => .error .outOfFuel
  | fuel + 1 =>
    -- plans in the fragment carry no Flow annotation, so the flow->hashExpr
    -- fix-up at the top of set_plan_refs is a no-op
    match plan with
    | .seqScan tl qual relid ip =>
        if cdbExprRequiresFullEval tl then
          cdbInsertResultNode fuel cat g (.seqScan tl qual relid ip) rtoffset
        else do
          let (g1, tl') ← fixScanTargetList cat rtoffset g tl
          let (g2, qual') ← fixScanExprMutatorList cat rtoffset g1 qual
          .ok (g2, .seqScan tl' qual' (relid + rtoffset) ip)
    | .cteScan tl qual relid ip => do
        -- no full-evaluation guard on this scan kind
        let (g1, tl') ← fixScanTargetList cat rtoffset g tl
        let (g2, qual') ← fixScanExprMutatorList cat rtoffset g1 qual
        .ok (g2, .cteScan tl' qual' (relid + rtoffset) ip)
    | .subqueryScan tl qual relid ip sub subrt subrm =>
        if cdbExprRequiresFullEval tl then
          cdbInsertResultNode fuel cat g
            (.subqueryScan tl qual relid ip sub subrt subrm) rtoffset
        else do
          -- set_subqueryscan_references: first recursively process the
          -- subplan with its own range table and row marks
          let (g1, sub') ← setPlanReferences fuel cat g sub subrt subrm
          sqPostProcess cat g1 tl qual relid ip sub' rtoffset
    | .nestLoop tl qual joinqual ip l r =>
        if cdbExprRequiresFullEval tl then
          cdbInsertResultNode fuel cat g (.nestLoop tl qual joinqual ip l r)
            rtoffset
        else do
          -- set_join_references over the children's pre-fix target lists
          let ctx := fixJoinExprCtx (buildTlistIndex l.targetlist)
            (some (buildTlistIndex r.targetlist)) 0 rtoffset
          let (g1, tl') ← fixJoinTargetList cat ctx g tl
          let (g2, qual') ← fixJoinExprMutatorList cat ctx g1 qual
          let (g3, joinqual') ← fixJoinExprMutatorList cat ctx g2 joinqual
          let (g4, l') ← setPlanRefs fuel cat g3 l rtoffset
          let (g5, r') ← setPlanRefs fuel cat g4 r rtoffset
          .ok (g5, .nestLoop tl' qual' joinqual' ip l' r')
    | .hashJoin tl qual joinqual hashclauses hashqualclauses ip l r =>
        if cdbExprRequiresFullEval tl then
          cdbInsertResultNode fuel cat g
            (.hashJoin tl qual joinqual hashclauses hashqualclauses ip l r)
            rtoffset
        else do
          let outerI := buildTlistIndex l.targetlist
          let innerI := buildTlistIndex r.targetlist
          let ctx := fixJoinExprCtx outerI (some innerI) 0 rtoffset
          let (g1, tl') ← fixJoinTargetList cat ctx g tl
          let (g2, qual') ← fixJoinExprMutatorList cat ctx g1 qual
          let (g3, joinqual') ← fixJoinExprMutatorList cat ctx g2 joinqual
          let (g4, hashclauses') ← fixHashclauses cat g3 hashclauses outerI
            (some innerI) 0 rtoffset
          let (g5, hashqualclauses') ← fixJoinExprMutatorList cat ctx g4
            hashqualclauses
          let (g6, l') ← setPlanRefs fuel cat g5 l rtoffset
          let (g7, r') ← setPlanRefs fuel cat g6 r rtoffset
          .ok (g7, .hashJoin tl' qual' joinqual' hashclauses'
                     hashqualclauses' ip l' r')
    | .agg tl qual ip l => do
        let (g1, tl', qual') ← setUpperReferences cat g tl qual l.targetlist
          rtoffset
        let (g2, l') ← setPlanRefs fuel cat g1 l rtoffset
        .ok (g2, .agg tl' qual' ip l')
    | .sort tl qual ip l => do
        -- Sort/Hash/Material/Unique/SetOp: display-only passthrough tlist;
        -- Assert(plan->qual == NIL) is compiled out and qual is untouched
        let tl' := setDummyTlistReferences tl rtoffset
        let (g1, l') ← setPlanRefs fuel cat g l rtoffset
        .ok (g1, .sort tl' qual ip l')
    | .append tl qual ip plans => do
        let tl' := setDummyTlistReferences tl rtoffset
        let (g1, plans') ← setPlanRefsList fuel cat g plans rtoffset
        .ok (g1, .append tl' qual ip plans')
    | .result tl qual rcq ip lt =>
        match lt with
        | some l => do
            let (g1, tl1, qual1) ← setUpperReferences cat g tl qual
              l.targetlist rtoffset
            -- this source tree lacks the upstream `else`: the rebuilt lists
            -- are immediately re-processed by the scan-level fixer as well
            let (g2, tl2) ← fixScanTargetList cat rtoffset g1 tl1
            let (g3, qual2) ← fixScanExprMutatorList cat rtoffset g2 qual1
            let (g4, rcq') ← (match rcq with
              | none => Except.ok (g3, none)
              | some e => do
                  let (g4, e') ← fixScanExprMutator cat rtoffset g3 e
                  Except.ok (g4, some e'))
            let (g5, l') ← setPlanRefs fuel cat g4 l rtoffset
            .ok (g5, .result tl2 qual2 rcq' ip (some l'))
        | none => do
            let (g1, tl') ← fixScanTargetList cat rtoffset g tl
            let (g2, qual') ← fixScanExprMutatorList cat rtoffset g1 qual
            let (g3, rcq') ← (match rcq with
              | none => Except.ok (g2, none)
              | some e => do
                  let (g3, e') ← fixScanExprMutator cat rtoffset g2 e
                  Except.ok (g3, some e'))
            .ok (g3, .result tl' qual' rcq' ip none)

def setPlanRefsList (fuel : Nat) (cat : Catalog) (g : Glob)
    (plans : List Plan) (rtoffset : Nat) :
    Except Err (Glob × List Plan) :=
  match fuel with
  | 0 => .error .outOfFuel
  | fuel + 1 =>
    match plans with
    | [] => .ok (g, [])
    | p :: ps => do
        let (g1, p') ← setPlanRefs fuel cat g p rtoffset
        let (g2, ps') ← setPlanRefsList fuel cat g1 ps rtoffset
        .ok (g2, p' :: ps')

def cdbInsertResultNode (fuel : Nat) (cat : Catalog) (g : Glob)
    (plan : Plan) (rtoffset : Nat) : Except Err (Glob × Plan) :=
  match fuel with
  | 0 => .error .outOfFuel
  | fuel + 1 =>
    -- Assert(!IsA(plan, Result) && requires-full-eval) is compiled out; the
    -- Flow unhook/reattach is a no-op in the flowless fragment.  The original
    -- target list moves onto a fresh Result node above the plan, whose own
    -- list becomes the flattened all-Vars cover; the combination is then
    -- fixed at the same offset.
    setPlanRefs fuel cat g
      (makeResultPlan plan.targetlist none
        (plan.withTargetlist (flattenTlist plan.targetlist)))
      rtoffset

def setPlanReferences (fuel : Nat) (cat : Catalog) (g : Glob) (plan : Plan)
    (rtable : List RangeTblEntry) (rowmarks : List PlanRowMark) :
    Except Err (Glob × Plan) :=
  match fuel with
  | 0 => .error .outOfFuel
  | fuel + 1 =>
    -- input asserts are compiled out
    let rtoffset := g.finalrtable.length
    let g1 := flattenRtable g rtable
    let g2 := flattenRowmarks g1 rtoffset rowmarks
    setPlanRefs fuel cat g2 plan rtoffset
end

/- Collecting every Var of an expression tree (`extract_nodes(..., T_Var)` of
   the consistency asserts). -/
mutual
def collectExprVars : Expr → List PgVar
  | .var v => [v]
  | .const _ _ _ => []
  | .opExpr _ _ _ _ args => collectExprVarsList args
  | .funcExpr _ _ _ args => collectExprVarsList args
  | .aggref _ _ args => collectExprVarsList args
  | .placeHolderVar p => collectExprVars p

def collectExprVarsList : List Expr → List PgVar
  | [] => []
  | e :: es => collectExprVars e ++ collectExprVarsList es
end

/-- All Vars of a target list. -/
def collectTlVars (tl : List TargetEntry) : List PgVar :=
  collectExprVarsList (tl.map (fun tle => tle.expr))

/- All Vars of every expression of every node of a plan tree. -/
mutual
def collectPlanVars : Plan → List PgVar
  | .seqScan tl q _ _ => collectTlVars tl ++ collectExprVarsList q
  | .cteScan tl q _ _ => collectTlVars tl ++ collectExprVarsList q
  | .subqueryScan tl q _ _ sub _ _ =>
      collectTlVars tl ++ collectExprVarsList q ++ collectPlanVars sub
  | .nestLoop tl q jq _ l r =>
      collectTlVars tl ++ collectExprVarsList q ++ collectExprVarsList jq
        ++ collectPlanVars l ++ collectPlanVars r
  | .hashJoin tl q jq hc hqc _ l r =>
      collectTlVars tl ++ collectExprVarsList q ++ collectExprVarsList jq
        ++ collectExprVarsList hc ++ collectExprVarsList hqc
        ++ collectPlanVars l ++ collectPlanVars r
  | .agg tl q _ l =>
      collectTlVars tl ++ collectExprVarsList q ++ collectPlanVars l
  | .sort tl q _ l =>
      collectTlVars tl ++ collectExprVarsList q ++ collectPlanVars l
  | .append tl q _ ps =>
      collectTlVars tl ++ collectExprVarsList q ++ collectPlanVarsList ps
  | .result tl q rcq _ lt =>
      collectTlVars tl ++ collectExprVarsList q
        ++ (match rcq with
            | some e => collectExprVars e
            | none => [])
        ++ (match lt with
            | some l => collectPlanVars l
            | none => [])

def collectPlanVarsList : List Plan → List PgVar
  | [] => []
  | p :: ps => collectPlanVars p ++ collectPlanVarsList ps
end

/-- The per-Var condition of `set_plan_references_output_asserts`: the
    relation slot is a reserved child sentinel or a valid slot of the
    flattened range table. -/
def varnoOK (rtlen : Nat) (varno : Nat) : Bool :=
  varno == INNER_VARNO || varno == OUTER_VARNO
    || (0 < varno && varno ≤ rtlen)

/-- The Var part of `set_plan_references_output_asserts`: every variable
    reference anywhere in the plan satisfies `varnoOK` against the final
    range table. -/
def allVarnosValid (g : Glob) (p : Plan) : Bool :=
  (collectPlanVars p).all (fun v => varnoOK g.finalrtable.length v.varno)

/-- One position of C3's specification-side condition (`pos` is the 1-based
    position): junk flags match, and the wrapper's entry is a variable
    reference carrying the position as its attribute number or a literal
    constant structurally equal to the child's entry. -/
def specEntryOK (pos : Int) (p c : TargetEntry) : Bool :=
  p.resjunk == c.resjunk &&
  (match p.expr with
   | .var v => v.varattno == pos
   | .const _ _ _ => equalExpr p.expr c.expr
   | _ => false)

/-- C3's specification-side eliminability condition, written from the spec's
    words for comparison with `trivialSubqueryscan`: the wrapper has no
    residual filter, and its output list is a 1:1 positional passthrough of
    the child's output with matching junk flags per position. -/
def specPassthroughOK (qual : List Expr) (ptl ctl : List TargetEntry) :
    Bool :=
  qual.isEmpty && ptl.length == ctl.length &&
  (List.range ptl.length).all (fun i =>
    match ptl.get? i, ctl.get? i with
    | some p, some c => specEntryOK ((i : Int) + 1) p c
    | _, _ => false)

/-- Is the node a Result projection node? -/
def Plan.isResultNode : Plan → Bool
  | .result _ _ _ _ _ => true
  | _ => false

/-! Concrete fixtures used by witnesses and counterexamples. -/

/-- A demo catalog: operator `n` is implemented by function `n + 1`; the
    catalog tuple of function `n` is `n + 7`. -/
def demoCat : Catalog :=
  { getOpcode := fun n => n + 1, procLookup := fun n => some (n + 7) }

/-- A plain-relation range-table entry with the given OID. -/
def demoRel (oid : Nat) : RangeTblEntry :=
  { rtekind := .relation, relid := oid, pseudocols := [] }

/-- A Var at (`no`, `att`) with matching diagnostics fields. -/
def mkV (no : Nat) (att : Int) : PgVar :=
  { varno := no, varattno := att, vartype := 23, varnoold := no,
    varoattno := att }

/-- A non-junk target entry holding a plain Var. -/
def tleV (no : Nat) (att : Int) (res : Nat) : TargetEntry :=
  { expr := .var (mkV no att), resno := res, resname := some res,
    ressortgroupref := 0, resorigtbl := 0, resorigcol := 0, resjunk := false }

/-- A fresh planning context. -/
def emptyGlob : Glob :=
  { finalrtable := [], finalrowmarks := [], relationOids := [],
    invalItems := [] }

/-- A context into which one subquery (over relation 400) was already
    flattened, so the next flattening runs at offset 1. -/
def oneGlob : Glob :=
  { finalrtable := [demoRel 400], finalrowmarks := [], relationOids := [400],
    invalItems := [] }

/-! Generic helpers about `Except` sequencing. -/

@[simp] theorem ok_bind {α β : Type} (a : α) (f : α → Except Err β) :
    (Except.ok a >>= f) = f a := rfl

@[simp] theorem error_bind {α β : Type} (e : Err) (f : α → Except Err β) :
    ((Except.error e : Except Err α) >>= f) = .error e := rfl

theorem bind_eq_ok {α β : Type} {x : Except Err α} {f : α → Except Err β}
    {b : β} (h : (x >>= f) = .ok b) : ∃ a, x = .ok a ∧ f a = .ok b := by
  cases x with
  | ok a => exact ⟨a, rfl, h⟩
  | error e => simp at h

/-- C7: the dependency collector adds a routine/aggregate/window invocation's
    implementation identifier to the function-dependency set exactly when the
    identifier is at or above the bootstrap-object threshold: below it the
    context is returned untouched (also when reached through the common
    expression bookkeeping for an invocation node), and at or above it one
    entry — the implementation's catalog tuple — is appended. -/
theorem c7_bootstrap_function_dependency (cat : Catalog) (g : Glob)
    (funcid : Nat) :
    (funcid < FirstBootstrapObjectId →
      recordPlanFunctionDependency cat g funcid = .ok g)
    ∧ (FirstBootstrapObjectId ≤ funcid →
        ∀ g', recordPlanFunctionDependency cat g funcid = .ok g' →
          ∃ t, cat.procLookup funcid = some t
            ∧ g'.invalItems = g.invalItems ++ [t])
    ∧ (∀ rty rs args g' e', funcid < FirstBootstrapObjectId →
        fixExprCommon cat g (.funcExpr funcid rty rs args) = .ok (g', e') →
        g' = g ∧ e' = .funcExpr funcid rty rs args) := by
  refine ⟨fun hlt => ?_, fun hge g' hok => ?_,
          fun rty rs args g' e' hlt hok => ?_⟩
  · simp [recordPlanFunctionDependency, Nat.not_le.mpr hlt]
  · rw [recordPlanFunctionDependency, if_pos hge] at hok
    cases hcl : cat.procLookup funcid with
    | none => rw [hcl] at hok; exact absurd hok (by simp)
    | some t =>
        rw [hcl] at hok
        refine ⟨t, rfl, ?_⟩
        have := congrArg Glob.invalItems (Except.ok.inj hok)
        simpa using this.symm
  · rw [fixExprCommon] at hok
    rw [show recordPlanFunctionDependency cat g funcid = .ok g by
          simp [recordPlanFunctionDependency, Nat.not_le.mpr hlt]] at hok
    simp at hok
    exact ⟨hok.1.symm, hok.2.symm⟩

/-- Witness for C7 at concrete inputs: function 42 is below the threshold and
    contributes nothing; function 10000 is at the threshold and its catalog
    tuple 10007 is appended. -/
theorem c7_bootstrap_function_dependency_witness :
    recordPlanFunctionDependency demoCat emptyGlob 42 = .ok emptyGlob
    ∧ ∃ t, demoCat.procLookup 10000 = some t
        ∧ ({ emptyGlob with invalItems := [10007] } : Glob).invalItems
            = emptyGlob.invalItems ++ [t] := by
  refine ⟨(c7_bootstrap_function_dependency demoCat emptyGlob 42).1
            (by decide), ?_⟩
  exact (c7_bootstrap_function_dependency demoCat emptyGlob 10000).2.1
    (by decide) _ rfl

/-- C4: a variable matching neither child index is fatal in the join fixer
    unless its relation slot equals the caller-supplied acceptable slot, in
    which case it passes through unchanged apart from its diagnostics-only
    original slot (shifted by the offset when positive); the single-child
    upper fixer is fatal for every unmatched variable, with no recovery. -/
theorem c4_unmatched_variable (cat : Catalog) (ctx : FixJoinCtx) (g : Glob)
    (v : PgVar)
    (ho : searchIndexedTlistForVar v ctx.outer_itlist OUTER_VARNO
            ctx.rtoffset = none)
    (hi : (match ctx.inner_itlist with
           | some itl =>
               searchIndexedTlistForVar v itl INNER_VARNO ctx.rtoffset
           | none => none) = none) :
    (v.varno = ctx.acceptable_rel →
      fixJoinExprMutator cat ctx g (.var v)
        = .ok (g, .var { v with
            varnoold := if 0 < v.varnoold then v.varnoold + ctx.rtoffset
                        else v.varnoold }))
    ∧ (v.varno ≠ ctx.acceptable_rel →
        fixJoinExprMutator cat ctx g (.var v) = .error .varNotFoundJoin)
    ∧ (∀ (itl : IndexedTlist) (r0 : Nat) (g0 : Glob) (w : PgVar),
        searchIndexedTlistForVar w itl OUTER_VARNO r0 = none →
        fixUpperExprMutator cat itl r0 g0 (.var w)
          = .error .varNotFoundUpper) := by
  refine ⟨fun hacc => ?_, fun hacc => ?_, fun itl r0 g0 w hw => ?_⟩
  · rw [fixJoinExprMutator, ho, hi, if_pos (beq_iff_eq.mpr hacc)]
  · rw [fixJoinExprMutator, ho, hi, if_neg (by simpa using hacc)]
  · rw [fixUpperExprMutator, hw]

/-- Witness for C4 at concrete inputs: the variable (3, 2) matches neither
    index; with acceptable slot 3 it passes through with its original slot
    shifted by 10, and the upper fixer rejects it outright. -/
theorem c4_unmatched_variable_witness :
    (fixJoinExprMutator demoCat
        (fixJoinExprCtx (buildTlistIndex [tleV 1 1 1]) none 3 10) emptyGlob
        (.var (mkV 3 2))
      = .ok (emptyGlob, .var { mkV 3 2 with varnoold := 13 }))
    ∧ fixUpperExprMutator demoCat (buildTlistIndex [tleV 1 1 1]) 10 emptyGlob
        (.var (mkV 3 2)) = .error .varNotFoundUpper := by
  have h := c4_unmatched_variable demoCat
    (fixJoinExprCtx (buildTlistIndex [tleV 1 1 1]) none 3 10) emptyGlob
    (mkV 3 2) rfl rfl
  exact ⟨h.1 rfl, h.2.2 (buildTlistIndex [tleV 1 1 1]) 10 emptyGlob (mkV 3 2)
    rfl⟩

/-- A relation entry carrying one pseudo column whose defining expression is
    an operator application over the variable (1, 1). -/
def pseudoRte : RangeTblEntry :=
  { rtekind := .relation, relid := 600,
    pseudocols := [Expr.opExpr 10 0 23 false [.var (mkV 1 1)]] }

/-- A context whose flattened range table holds `pseudoRte` in slot 6. -/
def pseudoGlob : Glob :=
  { finalrtable := [demoRel 1, demoRel 2, demoRel 3, demoRel 4, demoRel 5,
                    pseudoRte],
    finalrowmarks := [], relationOids := [], invalItems := [] }

/-- A variable naming the pseudo column of slot 1 (slot 6 after offset 5). -/
def pseudoVar : PgVar :=
  { varno := 1, varattno := -8, vartype := 23, varnoold := 1, varoattno := -8 }

/-- Counterexample for C8: fixing the pseudo-column variable `pseudoVar` at
    offset 5 yields a copy of the defining expression whose inner variable
    still has slot 1, whereas fixing that defining expression itself "the
    same way as any scan-level expression at the same offset" moves the slot
    to 6 — so the replacement is not the recursively fixed copy the claim
    describes. -/
theorem c8_pseudo_column_not_offset :
    (match fixScanExprMutator demoCat 5 pseudoGlob (.var pseudoVar) with
     | .ok (_, e) => (collectExprVars e).map (fun v => v.varno)
     | .error _ => []) = [1]
    ∧ (match fixScanExprMutator demoCat 5 pseudoGlob
          (.opExpr 10 0 23 false [.var (mkV 1 1)]) with
       | .ok (_, e) => (collectExprVars e).map (fun v => v.varno)
       | .error _ => []) = [6] := ⟨rfl, rfl⟩

/-- C8 amended: during scan-level fixing, a variable denoting a pseudo column
    is replaced by a copy of that column's defining expression processed only
    by the scan-level walker — which resolves operator implementation ids and
    records dependencies but does not offset the variable slots inside the
    copy. -/
theorem c8_pseudo_column_walker (cat : Catalog) (rtoffset : Nat) (g : Glob)
    (v : PgVar) (h : v.varattno ≤ FirstLowInvalidHeapAttributeNumber) :
    fixScanExprMutator cat rtoffset g (.var v)
      = match pseudoColLookup g (v.varno + rtoffset) v.varattno with
        | none => .error .pseudoColumnNotFound
        | some defexpr => fixScanExprWalker cat g defexpr := by
  rw [fixScanExprMutator]
  simp only [h, if_true]

/-- Witness for C8's amended theorem at the concrete pseudo column. -/
theorem c8_pseudo_column_walker_witness :
    fixScanExprMutator demoCat 5 pseudoGlob (.var pseudoVar)
      = match pseudoColLookup pseudoGlob (pseudoVar.varno + 5)
            pseudoVar.varattno with
        | none => .error .pseudoColumnNotFound
        | some defexpr => fixScanExprWalker demoCat pseudoGlob defexpr :=
  c8_pseudo_column_walker demoCat 5 pseudoGlob pseudoVar (by decide)

/-- An output entry invoking a set-returning function (function 42, below the
    bootstrap threshold, declared with result-set flag on). -/
def srfTle : TargetEntry :=
  { expr := .funcExpr 42 25 true [], resno := 1, resname := none,
    ressortgroupref := 0, resorigtbl := 0, resorigcol := 0, resjunk := false }

/-- Counterexample for C9: a CTE scan whose output list could invoke a
    set-returning expression is fixed in place — the fixer returns the CTE
    scan itself, not a synthesized projection wrapper. -/
theorem c9_cte_scan_unguarded :
    cdbExprRequiresFullEval [srfTle] = true
    ∧ setPlanRefs 20 demoCat oneGlob (.cteScan [srfTle] [] 1 []) 0
        = .ok (oneGlob, .cteScan [srfTle] [] 1 [])
    ∧ (match setPlanRefs 20 demoCat oneGlob (.cteScan [srfTle] [] 1 []) 0 with
       | .ok (_, p) => p.isResultNode
       | .error _ => true) = false := ⟨rfl, rfl, rfl⟩

/-- C9 amended: for the guard-carrying node kinds — the structurally
    equivalent table-scan family (seqScan here) and the joins — an output
    list that could invoke a set-returning expression makes the fixer return
    the result of fixing, at the same offset, a synthesized projection
    wrapper that carries the node's original output list above the node,
    whose own list becomes the flattened all-variable cover; when the list
    has no such expression the node is fixed in place, no wrapper added.
    (CTE scans, as the counterexample shows, never get the wrapper.) -/
theorem c9_full_eval_guard (fuel : Nat) (cat : Catalog) (g : Glob)
    (r : Nat) :
    (∀ tl qual relid ip, cdbExprRequiresFullEval tl = true →
      setPlanRefs (fuel + 2) cat g (.seqScan tl qual relid ip) r
        = setPlanRefs fuel cat g
            (.result tl [] none []
              (some (.seqScan (flattenTlist tl) qual relid ip))) r)
    ∧ (∀ tl qual jq hc hqc ip pl pr, cdbExprRequiresFullEval tl = true →
        setPlanRefs (fuel + 2) cat g (.hashJoin tl qual jq hc hqc ip pl pr) r
          = setPlanRefs fuel cat g
              (.result tl [] none []
                (some (.hashJoin (flattenTlist tl) qual jq hc hqc ip pl pr)))
              r)
    ∧ (∀ tl qual relid ip g' p', cdbExprRequiresFullEval tl = false →
        setPlanRefs (fuel + 1) cat g (.seqScan tl qual relid ip) r
          = .ok (g', p') →
        ∃ tl' qual', p' = .seqScan tl' qual' (relid + r) ip) := by
  refine ⟨fun tl qual relid ip hsrf => ?_,
          fun tl qual jq hc hqc ip pl pr hsrf => ?_,
          fun tl qual relid ip g' p' hsrf hok => ?_⟩
  · rw [setPlanRefs, if_pos hsrf, cdbInsertResultNode]
    rfl
  · rw [setPlanRefs, if_pos hsrf, cdbInsertResultNode]
    rfl
  · rw [setPlanRefs, if_neg (by simp [hsrf])] at hok
    obtain ⟨⟨g1, tl'⟩, h1, hok⟩ := bind_eq_ok hok
    obtain ⟨⟨g2, qual'⟩, h2, hok⟩ := bind_eq_ok hok
    exact ⟨tl', qual', (Prod.mk.injEq .. ▸ Except.ok.inj hok).2.symm⟩

/-- Witness for C9's amended theorem: the set-returning seqScan list
    triggers the wrapper, and a plain-variable list resolves in place. -/
theorem c9_full_eval_guard_witness :
    (setPlanRefs 20 demoCat oneGlob (.seqScan [srfTle] [] 1 []) 0
      = setPlanRefs 18 demoCat oneGlob
          (.result [srfTle] [] none []
            (some (.seqScan (flattenTlist [srfTle]) [] 1 []))) 0)
    ∧ ∃ tl' qual',
        (Plan.seqScan [tleV 1 1 1] [] 1 []
          : Plan) = .seqScan tl' qual' (1 + 0) [] := by
  refine ⟨(c9_full_eval_guard 18 demoCat oneGlob 0).1 [srfTle] [] 1 [] rfl,
          ?_⟩
  exact (c9_full_eval_guard 19 demoCat oneGlob 0).2.2 [tleV 1 1 1] [] 1 []
    _ _ rfl rfl

/-- A Result node computing one column from a seqScan child — the shape on
    which the resolve pass breaks its own output invariant at a nonzero
    offset. -/
def resultOverScan : Plan :=
  .result [tleV 1 1 1] [] none [] (some (.seqScan [tleV 1 1 1] [] 1 []))

/-- C1, demonstrated failing: resolving `resultOverScan` as the second
    flattened subquery (offset 1) succeeds but leaves a variable with
    relation slot 65002 = OUTER + 1 in the Result node's output list —
    neither a reserved sentinel nor within the 2-entry final range table —
    because the Result case of the dispatcher runs the scan-level fixer on
    top of the output of `set_upper_references` (the `else` present upstream
    is missing), shifting the freshly written sentinel.  The code's own
    compiled-out asserts (`Assert(var->varno != OUTER)` in the scan mutator,
    and the output asserts embodied in `allVarnosValid`) both reject this
    plan. -/
theorem c1_output_invariant_broken :
    (match setPlanReferences 20 demoCat oneGlob resultOverScan [demoRel 500]
        [] with
     | .ok (g, p) => some ((collectPlanVars p).map (fun v => v.varno),
                           g.finalrtable.length, allVarnosValid g p)
     | .error _ => none)
      = some ([OUTER_VARNO + 1, 2], 2, false) := rfl

/-- An aggregate over a seqScan, the smallest upper-node shape. -/
def aggOverScan : Plan :=
  .agg [tleV 1 1 1] [] [] (.seqScan [tleV 1 1 1] [] 1 [])

/-- Counterexample for C10: resolving `aggOverScan` succeeds, but running the
    per-node fixer again on the resolved plan with offset 0 raises the fatal
    unmatched-variable error instead of returning the plan unchanged — the
    aggregate's variables now carry the OUTER sentinel, which no longer
    matches the child's final-numbered output. -/
theorem c10_reresolution_fails :
    (match setPlanReferences 20 demoCat emptyGlob aggOverScan [demoRel 500]
        [] with
     | .ok (g1, p1) => setPlanRefs 20 demoCat g1 p1 0
     | .error e => .error e)
      = .error .varNotFoundUpper := rfl

/- An expression in already-resolved scan form: no pseudo-column variable, no
   placeholder, every operator's implementation id already filled in.  These
   are the expressions the scan-level mutator maps to themselves at
   offset 0. -/
mutual
def scanExprFixedB : Expr → Bool
  | .var v => decide (FirstLowInvalidHeapAttributeNumber < v.varattno)
  | .const _ _ _ => true
  | .opExpr _ fid _ _ args => fid != InvalidOid && scanExprFixedListB args
  | .funcExpr _ _ _ args => scanExprFixedListB args
  | .aggref _ _ args => scanExprFixedListB args
  | .placeHolderVar _ => false

def scanExprFixedListB : List Expr → Bool
  | [] => true
  | e :: es => scanExprFixedB e && scanExprFixedListB es
end

/-- The Var arm of the scan mutator, with the let-bound copy reduced. -/
theorem fixScanExprMutator_var (cat : Catalog) (r : Nat) (g : Glob)
    (v : PgVar) :
    fixScanExprMutator cat r g (.var v)
      = if v.varattno ≤ FirstLowInvalidHeapAttributeNumber then
          match pseudoColLookup g (v.varno + r) v.varattno with
          | none => .error .pseudoColumnNotFound
          | some defexpr => fixScanExprWalker cat g defexpr
        else .ok (g, .var { v with
            varno := v.varno + r,
            varnoold := if 0 < v.varnoold then v.varnoold + r
                        else v.varnoold }) := by
  rw [fixScanExprMutator]

theorem fixScan_zero_fixed :
    ∀ (cat : Catalog) (g : Glob) (e : Expr),
      scanExprFixedB e = true →
      ∀ (g' : Glob) (e' : Expr),
        fixScanExprMutator cat 0 g e = .ok (g', e') → e' = e := by
  intro cat g e
  induction g, e using fixScanExprMutator.induct cat 0
    (motive_2 := fun g es => scanExprFixedListB es = true →
      ∀ g' es', fixScanExprMutatorList cat 0 g es = .ok (g', es') →
        es' = es) with
  | case1 g v v1 hle hnone =>
      intro hfix g' e' _
      simp only [scanExprFixedB, decide_eq_true_eq] at hfix
      exact absurd (show v.varattno ≤ FirstLowInvalidHeapAttributeNumber
        from hle) (not_le.mpr hfix)
  | case2 g v v1 hle defexpr hsome =>
      intro hfix g' e' _
      simp only [scanExprFixedB, decide_eq_true_eq] at hfix
      exact absurd (show v.varattno ≤ FirstLowInvalidHeapAttributeNumber
        from hle) (not_le.mpr hfix)
  | case3 g v v1 hgt =>
      intro hfix g' e' hok
      rw [fixScanExprMutator_var] at hok
      rw [if_neg (show ¬ v.varattno ≤ FirstLowInvalidHeapAttributeNumber
        from hgt)] at hok
      have := (Prod.mk.injEq .. ▸ Except.ok.inj hok).2
      rw [← this]
      have hv : ({ varno := v.varno + 0, varattno := v.varattno,
                   vartype := v.vartype,
                   varnoold := if 0 < v.varnoold then v.varnoold + 0
                               else v.varnoold,
                   varoattno := v.varoattno } : PgVar) = v := by
        cases v
        simp
      rw [show ({ v with
            varno := v.varno + 0,
            varnoold := if 0 < v.varnoold then v.varnoold + 0
                        else v.varnoold } : PgVar) = v from hv]
  | case4 g p ih =>
      intro hfix
      simp [scanExprFixedB] at hfix
  | case5 g a b c =>
      intro hfix g' e' hok
      rw [fixScanExprMutator, fixExprCommon] at hok
      by_cases hrc : isRegclassConst a c
      · rw [if_pos hrc] at hok
        exact ((Prod.mk.injEq .. ▸ Except.ok.inj hok).2).symm
      · rw [if_neg hrc] at hok
        exact ((Prod.mk.injEq .. ▸ Except.ok.inj hok).2).symm
  | case6 g a b c d args ih =>
      intro hfix g' e' hok
      simp only [scanExprFixedB, Bool.and_eq_true, bne_iff_ne,
        ne_eq] at hfix
      rw [fixScanExprMutator, fixExprCommon] at hok
      rw [show (b == InvalidOid) = false by simpa using hfix.1] at hok
      simp only [Bool.false_eq_true, if_false] at hok
      obtain ⟨⟨g1, e1⟩, hg1, hok⟩ := bind_eq_ok hok
      obtain ⟨gg, hrec, hinj⟩ := bind_eq_ok hg1
      have he1 : e1 = Expr.opExpr a b c d args :=
        ((Prod.mk.injEq .. ▸ Except.ok.inj hinj).2).symm
      obtain ⟨⟨g2, args'⟩, hargs, hok⟩ := bind_eq_ok hok
      have hargs' := ih g1 hfix.2 g2 args' hargs
      have hfin := (Prod.mk.injEq .. ▸ Except.ok.inj hok).2
      rw [← hfin, hargs', he1]
      rfl
  | case7 g a b c args ih =>
      intro hfix g' e' hok
      simp only [scanExprFixedB] at hfix
      rw [fixScanExprMutator, fixExprCommon] at hok
      obtain ⟨⟨g1, e1⟩, hg1, hok⟩ := bind_eq_ok hok
      obtain ⟨gg, hrec, hinj⟩ := bind_eq_ok hg1
      have he1 : e1 = Expr.funcExpr a b c args :=
        ((Prod.mk.injEq .. ▸ Except.ok.inj hinj).2).symm
      obtain ⟨⟨g2, args'⟩, hargs, hok⟩ := bind_eq_ok hok
      have hargs' := ih g1 hfix g2 args' hargs
      have hfin := (Prod.mk.injEq .. ▸ Except.ok.inj hok).2
      rw [← hfin, hargs', he1]
      rfl
  | case8 g a b args ih =>
      intro hfix g' e' hok
      simp only [scanExprFixedB] at hfix
      rw [fixScanExprMutator, fixExprCommon] at hok
      obtain ⟨⟨g1, e1⟩, hg1, hok⟩ := bind_eq_ok hok
      obtain ⟨gg, hrec, hinj⟩ := bind_eq_ok hg1
      have he1 : e1 = Expr.aggref a b args :=
        ((Prod.mk.injEq .. ▸ Except.ok.inj hinj).2).symm
      obtain ⟨⟨g2, args'⟩, hargs, hok⟩ := bind_eq_ok hok
      have hargs' := ih g1 hfix g2 args' hargs
      have hfin := (Prod.mk.injEq .. ▸ Except.ok.inj hok).2
      rw [← hfin, hargs', he1]
      rfl
  | case9 g hfix g' es' hok =>
      rw [fixScanExprMutatorList] at hok
      exact ((Prod.mk.injEq .. ▸ Except.ok.inj hok).2).symm
  | case10 g e es ihe ihes hfix g' es' hok =>
      simp only [scanExprFixedListB, Bool.and_eq_true] at hfix
      rw [fixScanExprMutatorList] at hok
      obtain ⟨⟨g1, e1⟩, he, hok⟩ := bind_eq_ok hok
      obtain ⟨⟨g2, es2⟩, hes, hok⟩ := bind_eq_ok hok
      have h1 := ihe hfix.1 g1 e1 he
      have h2 := ihes g1 hfix.2 g2 es2 hes
      have := (Prod.mk.injEq .. ▸ Except.ok.inj hok).2
      rw [← this, h1, h2]

theorem fixScanList_zero_fixed :
    ∀ (cat : Catalog) (es : List Expr) (g g' : Glob) (es' : List Expr),
      scanExprFixedListB es = true →
      fixScanExprMutatorList cat 0 g es = .ok (g', es') → es' = es := by
  intro cat es
  induction es with
  | nil =>
      intro g g' es' _ hok
      rw [fixScanExprMutatorList] at hok
      exact ((Prod.mk.injEq .. ▸ Except.ok.inj hok).2).symm
  | cons e rest ih =>
      intro g g' es' hfix hok
      simp only [scanExprFixedListB, Bool.and_eq_true] at hfix
      rw [fixScanExprMutatorList] at hok
      obtain ⟨⟨g1, e1⟩, he, hok⟩ := bind_eq_ok hok
      obtain ⟨⟨g2, rest2⟩, hrest, hok⟩ := bind_eq_ok hok
      have h1 := fixScan_zero_fixed cat g e hfix.1 g1 e1 he
      have h2 := ih g1 g2 rest2 hfix.2 hrest
      have := (Prod.mk.injEq .. ▸ Except.ok.inj hok).2
      rw [← this, h1, h2]

theorem fixScanTargetList_zero_fixed :
    ∀ (cat : Catalog) (tl : List TargetEntry) (g g' : Glob)
      (tl' : List TargetEntry),
      scanExprFixedListB (tl.map (fun t => t.expr)) = true →
      fixScanTargetList cat 0 g tl = .ok (g', tl') → tl' = tl := by
  intro cat tl
  induction tl with
  | nil =>
      intro g g' tl' _ hok
      rw [fixScanTargetList] at hok
      exact ((Prod.mk.injEq .. ▸ Except.ok.inj hok).2).symm
  | cons tle rest ih =>
      intro g g' tl' hfix hok
      simp only [List.map_cons, scanExprFixedListB, Bool.and_eq_true] at hfix
      rw [fixScanTargetList] at hok
      obtain ⟨⟨g1, e1⟩, he, hok⟩ := bind_eq_ok hok
      obtain ⟨⟨g2, rest2⟩, hrest, hok⟩ := bind_eq_ok hok
      have h1 := fixScan_zero_fixed cat g tle.expr hfix.1 g1 e1 he
      have h2 := ih g1 g2 rest2 hfix.2 hrest
      have := (Prod.mk.injEq .. ▸ Except.ok.inj hok).2
      rw [← this, h1, h2]

/-- C10 amended: at offset 0 the per-node fixer maps an already-resolved
    scan node to itself (its expressions contain no pseudo columns or
    placeholders and already carry implementation ids; the context may only
    accumulate duplicate dependency entries); it is NOT a no-op on upper
    nodes — an aggregate whose first output expression is a variable that no
    longer matches the child's (already final-numbered) output raises the
    fatal unmatched-variable error. -/
theorem c10_refix_scan_only (fuel : Nat) (cat : Catalog) (g : Glob) :
    (∀ tl qual relid ip g' p',
       scanExprFixedListB (tl.map (fun t => t.expr)) = true →
       scanExprFixedListB qual = true →
       cdbExprRequiresFullEval tl = false →
       setPlanRefs (fuel + 1) cat g (.seqScan tl qual relid ip) 0
         = .ok (g', p') →
       p' = .seqScan tl qual relid ip)
    ∧ (∀ tle rest qual ip l v,
        tle.expr = .var v →
        searchIndexedTlistForVar v (buildTlistIndex l.targetlist)
          OUTER_VARNO 0 = none →
        setPlanRefs (fuel + 1) cat g (.agg (tle :: rest) qual ip l) 0
          = .error .varNotFoundUpper) := by
  constructor
  · intro tl qual relid ip g' p' hfixtl hfixq hsrf hok
    rw [setPlanRefs] at hok
    rw [if_neg (by simp [hsrf])] at hok
    obtain ⟨⟨g1, tl'⟩, htl, hok⟩ := bind_eq_ok hok
    obtain ⟨⟨g2, qual'⟩, hq, hok⟩ := bind_eq_ok hok
    have h1 := fixScanTargetList_zero_fixed cat tl g g1 tl' hfixtl htl
    have h2 := fixScanList_zero_fixed cat qual g1 g2 qual' hfixq hq
    have := (Prod.mk.injEq .. ▸ Except.ok.inj hok).2
    rw [← this, h1, h2, Nat.add_zero]
  · intro tle rest qual ip l v htle hsearch
    rw [setPlanRefs]
    have hup : setUpperReferences cat g (tle :: rest) qual l.targetlist 0
        = .error .varNotFoundUpper := by
      rw [setUpperReferences, setUpperReferencesTl]
      rw [show (tle.ressortgroupref != 0 && !tle.expr.isVarNode) = false by
            simp [htle, Expr.isVarNode]]
      simp only [Bool.false_eq_true, if_false]
      rw [htle, fixUpperExprMutator, hsearch]
      rfl
    rw [hup]
    rfl

/-- Witness for C10's amended theorem: the resolved scan over relation slot 1
    maps to itself at offset 0, and re-fixing the resolved aggregate (whose
    output now reads `OUTER.1`) is fatal. -/
theorem c10_refix_scan_only_witness :
    (∃ g' p', setPlanRefs 20 demoCat oneGlob (.seqScan [tleV 1 1 1] [] 1 [])
        0 = .ok (g', p') ∧ p' = .seqScan [tleV 1 1 1] [] 1 [])
    ∧ setPlanRefs 20 demoCat oneGlob
        (.agg [{ tleV 1 1 1 with
                 expr := .var { varno := OUTER_VARNO, varattno := 1,
                                vartype := 23, varnoold := 1,
                                varoattno := 1 } }] [] []
          (.seqScan [tleV 1 1 1] [] 1 [])) 0
      = .error .varNotFoundUpper := by
  constructor
  · exact ⟨_, _, rfl,
      (c10_refix_scan_only 19 demoCat oneGlob).1 [tleV 1 1 1] [] 1 [] _ _
        rfl rfl rfl rfl⟩
  · exact (c10_refix_scan_only 19 demoCat oneGlob).2 _ [] [] []
      (.seqScan [tleV 1 1 1] [] 1 []) _ rfl rfl

/-- C5: after resolution a passthrough node (the Sort/Hash/Material/Unique/
    SetOp family) carries the synthesized display list: entry i is a plain
    "take position i from child" variable — OUTER sentinel slot, attribute
    i + 1 — a strictly increasing 1:1 sequence over the declared positions,
    and no residual filter.  (The hypotheses are the code's own invariants:
    output positions contiguous from 1, and `Assert(plan->qual == NIL)`.) -/
theorem c5_passthrough_output (fuel : Nat) (cat : Catalog) (g : Glob)
    (tl : List TargetEntry) (ip : List Nat) (l : Plan) (r : Nat)
    (hres : ∀ i (h : i < tl.length), (tl.get ⟨i, h⟩).resno = i + 1)
    (g' : Glob) (p' : Plan)
    (hok : setPlanRefs (fuel + 1) cat g (.sort tl [] ip l) r
             = .ok (g', p')) :
    ∃ l', p' = .sort (setDummyTlistReferences tl r) [] ip l'
      ∧ (setDummyTlistReferences tl r).length = tl.length
      ∧ ∀ i (h : i < (setDummyTlistReferences tl r).length),
          ∃ v, ((setDummyTlistReferences tl r).get ⟨i, h⟩).expr = .var v
            ∧ v.varno = OUTER_VARNO ∧ v.varattno = (i : Int) + 1 := by
  rw [setPlanRefs] at hok
  obtain ⟨⟨g1, l'⟩, hl, hok⟩ := bind_eq_ok hok
  have hp := (Prod.mk.injEq .. ▸ Except.ok.inj hok).2
  refine ⟨l', hp.symm, by simp [setDummyTlistReferences], ?_⟩
  intro i h
  have h2 : i < tl.length := by
    simpa [setDummyTlistReferences] using h
  have hmain : ((setDummyTlistReferences tl r).get ⟨i, h⟩).expr
      = .var { varno := OUTER_VARNO,
               varattno := ((tl.get ⟨i, h2⟩).resno : Int),
               vartype := exprTypeOf (tl.get ⟨i, h2⟩).expr,
               varnoold := match (tl.get ⟨i, h2⟩).expr with
                           | .var w => w.varno + r
                           | _ => 0,
               varoattno := match (tl.get ⟨i, h2⟩).expr with
                            | .var w => w.varattno
                            | _ => 0 } := by
    simp only [setDummyTlistReferences, List.get_eq_getElem,
      List.getElem_map]
  refine ⟨_, hmain, rfl, ?_⟩
  show ((tl.get ⟨i, h2⟩).resno : Int) = (i : Int) + 1
  rw [hres i h2]
  push_cast
  ring

/-- Witness for C5: a two-column Sort over a seqScan, resolved at offset 0,
    carries the synthesized OUTER/1, OUTER/2 display list. -/
theorem c5_passthrough_output_witness :
    ∃ l', (Plan.sort (setDummyTlistReferences [tleV 1 1 1, tleV 1 2 2] 0)
             [] [] (.seqScan [tleV 1 1 1, tleV 1 2 2] [] 1 []))
            = .sort (setDummyTlistReferences [tleV 1 1 1, tleV 1 2 2] 0) []
                [] l'
      ∧ (setDummyTlistReferences [tleV 1 1 1, tleV 1 2 2] 0).length
          = ([tleV 1 1 1, tleV 1 2 2] : List TargetEntry).length
      ∧ ∀ i (h : i < (setDummyTlistReferences [tleV 1 1 1, tleV 1 2 2]
               0).length),
          ∃ v, ((setDummyTlistReferences [tleV 1 1 1, tleV 1 2 2] 0).get
                  ⟨i, h⟩).expr = .var v
            ∧ v.varno = OUTER_VARNO ∧ v.varattno = (i : Int) + 1 := by
  refine c5_passthrough_output 19 demoCat oneGlob [tleV 1 1 1, tleV 1 2 2]
    [] (.seqScan [tleV 1 1 1, tleV 1 2 2] [] 1 []) 0 ?_ oneGlob _ rfl
  intro i h
  match i, h with
  | 0, _ => rfl
  | 1, _ => rfl

/-- The context with the outer child's computed entries made invisible to
    whole-expression matching. -/
def clearOuterNonVars (ctx : FixJoinCtx) : FixJoinCtx :=
  { ctx with outer_itlist :=
      { ctx.outer_itlist with has_non_vars := false } }

/-- The context with the inner child's computed entries made invisible to
    whole-expression matching. -/
def clearInnerNonVars (ctx : FixJoinCtx) : FixJoinCtx :=
  { ctx with inner_itlist :=
      match ctx.inner_itlist with
      | some itl => some { itl with has_non_vars := false }
      | none => none }

@[simp] theorem searchVar_clearOuter (ctx : FixJoinCtx) (v : PgVar)
    (n r : Nat) :
    searchIndexedTlistForVar v (clearOuterNonVars ctx).outer_itlist n r
      = searchIndexedTlistForVar v ctx.outer_itlist n r := rfl

@[simp] theorem searchNonVar_clearOuter (ctx : FixJoinCtx) (e : Expr)
    (n : Nat) :
    searchIndexedTlistForNonVar e (clearOuterNonVars ctx).outer_itlist n
      = searchIndexedTlistForNonVar e ctx.outer_itlist n := rfl

@[simp] theorem hasPh_clearOuter (ctx : FixJoinCtx) :
    (clearOuterNonVars ctx).outer_itlist.has_ph_vars
      = ctx.outer_itlist.has_ph_vars := rfl

@[simp] theorem inner_clearOuter (ctx : FixJoinCtx) :
    (clearOuterNonVars ctx).inner_itlist = ctx.inner_itlist := rfl

@[simp] theorem rtoffset_clearOuter (ctx : FixJoinCtx) :
    (clearOuterNonVars ctx).rtoffset = ctx.rtoffset := rfl

@[simp] theorem acceptable_clearOuter (ctx : FixJoinCtx) :
    (clearOuterNonVars ctx).acceptable_rel = ctx.acceptable_rel := rfl

@[simp] theorem outer_clearInner (ctx : FixJoinCtx) :
    (clearInnerNonVars ctx).outer_itlist = ctx.outer_itlist := rfl

@[simp] theorem rtoffset_clearInner (ctx : FixJoinCtx) :
    (clearInnerNonVars ctx).rtoffset = ctx.rtoffset := rfl

@[simp] theorem acceptable_clearInner (ctx : FixJoinCtx) :
    (clearInnerNonVars ctx).acceptable_rel = ctx.acceptable_rel := rfl

theorem searchVarInner_clearInner (ctx : FixJoinCtx) (v : PgVar) (n r : Nat) :
    (match (clearInnerNonVars ctx).inner_itlist with
     | some itl => searchIndexedTlistForVar v itl n r
     | none => none)
      = (match ctx.inner_itlist with
         | some itl => searchIndexedTlistForVar v itl n r
         | none => none) := by
  rw [clearInnerNonVars]
  cases ctx.inner_itlist <;> rfl

theorem searchPhInner_clearInner (ctx : FixJoinCtx) (p : Expr) (n : Nat) :
    (match (clearInnerNonVars ctx).inner_itlist with
     | some itl =>
         if itl.has_ph_vars = true then
           searchIndexedTlistForNonVar (.placeHolderVar p) itl n
         else none
     | none => none)
      = (match ctx.inner_itlist with
         | some itl =>
             if itl.has_ph_vars = true then
               searchIndexedTlistForNonVar (.placeHolderVar p) itl n
             else none
         | none => none) := by
  rw [clearInnerNonVars]
  cases ctx.inner_itlist <;> rfl

theorem joinNonVarLookup_clearOuter (ctx : FixJoinCtx)
    (h : ctx.use_outer_tlist_for_matching_nonvars = false) (e : Expr) :
    joinNonVarLookup (clearOuterNonVars ctx) e = joinNonVarLookup ctx e := by
  rw [joinNonVarLookup, joinNonVarLookup]
  have huse : (clearOuterNonVars ctx).use_outer_tlist_for_matching_nonvars
      = false := h
  have huse2 : (clearOuterNonVars ctx).use_inner_tlist_for_matching_nonvars
      = ctx.use_inner_tlist_for_matching_nonvars := rfl
  rw [h, huse, huse2, inner_clearOuter]
  simp only [Bool.and_false, Bool.false_eq_true, if_false]

theorem joinNonVarLookup_clearInner (ctx : FixJoinCtx)
    (h : ctx.use_inner_tlist_for_matching_nonvars = false) (e : Expr) :
    joinNonVarLookup (clearInnerNonVars ctx) e = joinNonVarLookup ctx e := by
  rw [joinNonVarLookup, joinNonVarLookup]
  have huse : (clearInnerNonVars ctx).use_inner_tlist_for_matching_nonvars
      = false := h
  have huse2 : (clearInnerNonVars ctx).use_outer_tlist_for_matching_nonvars
      = ctx.use_outer_tlist_for_matching_nonvars := rfl
  rw [h, huse, huse2, outer_clearInner]
  simp only [Bool.and_false, Bool.false_eq_true, if_false]

theorem fixJoin_outer_nonvars_off (cat : Catalog) (ctx : FixJoinCtx)
    (h : ctx.use_outer_tlist_for_matching_nonvars = false) :
    ∀ (g : Glob) (e : Expr),
      fixJoinExprMutator cat ctx g e
        = fixJoinExprMutator cat (clearOuterNonVars ctx) g e := by
  intro g e
  induction g, e using fixJoinExprMutator.induct cat ctx
    (motive_2 := fun g es => fixJoinExprMutatorList cat ctx g es
      = fixJoinExprMutatorList cat (clearOuterNonVars ctx) g es) with
  | case1 g v nv h1 =>
      rw [fixJoinExprMutator, fixJoinExprMutator]
      simp only [searchVar_clearOuter, rtoffset_clearOuter]
      rw [h1]
  | case2 g v h1 nv h2 =>
      rw [fixJoinExprMutator, fixJoinExprMutator]
      simp only [searchVar_clearOuter, rtoffset_clearOuter, inner_clearOuter]
      rw [h1, h2]
  | case3 g v h1 h2 h3 =>
      rw [fixJoinExprMutator, fixJoinExprMutator]
      simp only [searchVar_clearOuter, rtoffset_clearOuter, inner_clearOuter,
        acceptable_clearOuter]
  | case4 g v h1 h2 h3 =>
      rw [fixJoinExprMutator, fixJoinExprMutator]
      simp only [searchVar_clearOuter, rtoffset_clearOuter, inner_clearOuter,
        acceptable_clearOuter]
  | case5 g p nv h1 =>
      rw [fixJoinExprMutator, fixJoinExprMutator]
      simp only [searchNonVar_clearOuter, hasPh_clearOuter, inner_clearOuter]
      rw [h1]
  | case6 g p h1 nv h2 =>
      rw [fixJoinExprMutator, fixJoinExprMutator]
      simp only [searchNonVar_clearOuter, hasPh_clearOuter, inner_clearOuter]
      rw [h1, h2]
  | case7 g p h1 h2 ih =>
      rw [fixJoinExprMutator, fixJoinExprMutator]
      simp only [searchNonVar_clearOuter, hasPh_clearOuter, inner_clearOuter]
      rw [h1, h2]
      exact ih
  | case8 g a b c nv h1 =>
      rw [fixJoinExprMutator, fixJoinExprMutator,
        joinNonVarLookup_clearOuter ctx h, h1]
  | case9 g a b c h1 =>
      rw [fixJoinExprMutator, fixJoinExprMutator,
        joinNonVarLookup_clearOuter ctx h, h1]
  | case10 g a b c d args nv h1 =>
      rw [fixJoinExprMutator, fixJoinExprMutator,
        joinNonVarLookup_clearOuter ctx h, h1]
  | case11 g a b c d args h1 ih =>
      rw [fixJoinExprMutator, fixJoinExprMutator,
        joinNonVarLookup_clearOuter ctx h, h1]
      simp only [ih]
  | case12 g a b c args nv h1 =>
      rw [fixJoinExprMutator, fixJoinExprMutator,
        joinNonVarLookup_clearOuter ctx h, h1]
  | case13 g a b c args h1 ih =>
      rw [fixJoinExprMutator, fixJoinExprMutator,
        joinNonVarLookup_clearOuter ctx h, h1]
      simp only [ih]
  | case14 g a b args nv h1 =>
      rw [fixJoinExprMutator, fixJoinExprMutator,
        joinNonVarLookup_clearOuter ctx h, h1]
  | case15 g a b args h1 ih =>
      rw [fixJoinExprMutator, fixJoinExprMutator,
        joinNonVarLookup_clearOuter ctx h, h1]
      simp only [ih]
  | case16 g =>
      rw [fixJoinExprMutatorList, fixJoinExprMutatorList]
  | case17 g e es ihe ihes =>
      rw [fixJoinExprMutatorList, fixJoinExprMutatorList, ← ihe]
      simp only [ihes]

theorem fixJoin_inner_nonvars_off (cat : Catalog) (ctx : FixJoinCtx)
    (h : ctx.use_inner_tlist_for_matching_nonvars = false) :
    ∀ (g : Glob) (e : Expr),
      fixJoinExprMutator cat ctx g e
        = fixJoinExprMutator cat (clearInnerNonVars ctx) g e := by
  intro g e
  induction g, e using fixJoinExprMutator.induct cat ctx
    (motive_2 := fun g es => fixJoinExprMutatorList cat ctx g es
      = fixJoinExprMutatorList cat (clearInnerNonVars ctx) g es) with
  | case1 g v nv h1 =>
      rw [fixJoinExprMutator, fixJoinExprMutator]
      simp only [outer_clearInner, rtoffset_clearInner]
      rw [h1]
  | case2 g v h1 nv h2 =>
      rw [fixJoinExprMutator, fixJoinExprMutator]
      simp only [outer_clearInner, rtoffset_clearInner,
        searchVarInner_clearInner]
      rw [h1, h2]
  | case3 g v h1 h2 h3 =>
      rw [fixJoinExprMutator, fixJoinExprMutator]
      simp only [outer_clearInner, rtoffset_clearInner,
        searchVarInner_clearInner, acceptable_clearInner]
  | case4 g v h1 h2 h3 =>
      rw [fixJoinExprMutator, fixJoinExprMutator]
      simp only [outer_clearInner, rtoffset_clearInner,
        searchVarInner_clearInner, acceptable_clearInner]
  | case5 g p nv h1 =>
      rw [fixJoinExprMutator, fixJoinExprMutator]
      simp only [outer_clearInner]
      rw [h1]
  | case6 g p h1 nv h2 =>
      rw [fixJoinExprMutator, fixJoinExprMutator]
      simp only [outer_clearInner, searchPhInner_clearInner]
      rw [h1, h2]
  | case7 g p h1 h2 ih =>
      rw [fixJoinExprMutator, fixJoinExprMutator]
      simp only [outer_clearInner, searchPhInner_clearInner]
      rw [h1, h2]
      exact ih
  | case8 g a b c nv h1 =>
      rw [fixJoinExprMutator, fixJoinExprMutator,
        joinNonVarLookup_clearInner ctx h, h1]
  | case9 g a b c h1 =>
      rw [fixJoinExprMutator, fixJoinExprMutator,
        joinNonVarLookup_clearInner ctx h, h1]
  | case10 g a b c d args nv h1 =>
      rw [fixJoinExprMutator, fixJoinExprMutator,
        joinNonVarLookup_clearInner ctx h, h1]
  | case11 g a b c d args h1 ih =>
      rw [fixJoinExprMutator, fixJoinExprMutator,
        joinNonVarLookup_clearInner ctx h, h1]
      simp only [ih]
  | case12 g a b c args nv h1 =>
      rw [fixJoinExprMutator, fixJoinExprMutator,
        joinNonVarLookup_clearInner ctx h, h1]
  | case13 g a b c args h1 ih =>
      rw [fixJoinExprMutator, fixJoinExprMutator,
        joinNonVarLookup_clearInner ctx h, h1]
      simp only [ih]
  | case14 g a b args nv h1 =>
      rw [fixJoinExprMutator, fixJoinExprMutator,
        joinNonVarLookup_clearInner ctx h, h1]
  | case15 g a b args h1 ih =>
      rw [fixJoinExprMutator, fixJoinExprMutator,
        joinNonVarLookup_clearInner ctx h, h1]
      simp only [ih]
  | case16 g =>
      rw [fixJoinExprMutatorList, fixJoinExprMutatorList]
  | case17 g e es ihe ihes =>
      rw [fixJoinExprMutatorList, fixJoinExprMutatorList, ← ihe]
      simp only [ihes]

/-- C6: fixing one argument of a hash-equality clause never satisfies a
    non-variable subexpression by matching it against the other child's
    indexed target list — fixing the inner argument behaves exactly as if
    the outer child's list had no computed entries visible to
    whole-expression matching, and fixing the outer argument exactly as if
    the inner child's list had none.  (Seen in context builders: the
    `fix_child_hashclauses` context for one child switches the other side's
    `use_*_tlist_for_matching_nonvars` flag off, and under an off flag the
    inner lookup of the duplicated conditional still never fires.) -/
theorem c6_hash_clause_asymmetry (cat : Catalog) (outer : IndexedTlist)
    (inner : Option IndexedTlist) (acc r : Nat) (g : Glob) (e : Expr) :
    (fixChildHashclauses cat g e outer inner acc r INNER_VARNO
       = fixJoinExprMutator cat
           (clearOuterNonVars
             (fixChildHashclausesCtx outer inner acc r INNER_VARNO)) g e)
    ∧ (fixChildHashclauses cat g e outer inner acc r OUTER_VARNO
       = fixJoinExprMutator cat
           (clearInnerNonVars
             (fixChildHashclausesCtx outer inner acc r OUTER_VARNO)) g e) :=
  ⟨fixJoin_outer_nonvars_off cat
     (fixChildHashclausesCtx outer inner acc r INNER_VARNO) rfl g e,
   fixJoin_inner_nonvars_off cat
     (fixChildHashclausesCtx outer inner acc r OUTER_VARNO) rfl g e⟩

theorem trivTl_cons (a : Int) (p c : TargetEntry)
    (ps cs : List TargetEntry) :
    trivialSubqueryscanTl a (p :: ps) (c :: cs)
      = (specEntryOK a p c && trivialSubqueryscanTl (a + 1) ps cs) := by
  rw [trivialSubqueryscanTl, specEntryOK]
  by_cases hj : p.resjunk != c.resjunk
  · rw [if_pos hj]
    have hb : (p.resjunk == c.resjunk) = false := by
      simpa [bne] using hj
    rw [hb]
    simp
  · rw [if_neg hj]
    have hb : (p.resjunk == c.resjunk) = true := by
      simpa [bne] using hj
    rw [hb]
    simp only [Bool.true_and]
    cases hp : p.expr with
    | var v =>
        show (if (v.varattno == a) = true then
                trivialSubqueryscanTl (a + 1) ps cs else false)
            = ((v.varattno == a) && trivialSubqueryscanTl (a + 1) ps cs)
        by_cases hv : (v.varattno == a) = true
        · rw [if_pos hv, hv, Bool.true_and]
        · rw [if_neg hv, Bool.eq_false_iff.mpr hv, Bool.false_and]
    | const x y z =>
        show (if equalExpr (Expr.const x y z) c.expr = true then
                trivialSubqueryscanTl (a + 1) ps cs else false)
            = (equalExpr (Expr.const x y z) c.expr
                && trivialSubqueryscanTl (a + 1) ps cs)
        by_cases he : equalExpr (Expr.const x y z) c.expr = true
        · rw [if_pos he, he, Bool.true_and]
        · rw [if_neg he, Bool.eq_false_iff.mpr he, Bool.false_and]
    | opExpr x1 x2 x3 x4 x5 =>
        show (false : Bool) = (false && trivialSubqueryscanTl (a + 1) ps cs)
        rw [Bool.false_and]
    | funcExpr x1 x2 x3 x4 =>
        show (false : Bool) = (false && trivialSubqueryscanTl (a + 1) ps cs)
        rw [Bool.false_and]
    | aggref x1 x2 x3 =>
        show (false : Bool) = (false && trivialSubqueryscanTl (a + 1) ps cs)
        rw [Bool.false_and]
    | placeHolderVar x =>
        show (false : Bool) = (false && trivialSubqueryscanTl (a + 1) ps cs)
        rw [Bool.false_and]

theorem trivTl_iff :
    ∀ (ps cs : List TargetEntry) (k : Int), ps.length = cs.length →
      (trivialSubqueryscanTl k ps cs = true ↔
        ∀ i, i < ps.length →
          (match ps.get? i, cs.get? i with
           | some p, some c => specEntryOK (k + (i : Int)) p c
           | _, _ => false) = true) := by
  intro ps
  induction ps with
  | nil =>
      intro cs k hlen
      cases cs with
      | nil => simp [trivialSubqueryscanTl]
      | cons c cs => simp at hlen
  | cons p ps ih =>
      intro cs k hlen
      cases cs with
      | nil => simp at hlen
      | cons c cs =>
          have hlen' : ps.length = cs.length := by simpa using hlen
          rw [trivTl_cons, Bool.and_eq_true, ih cs (k + 1) hlen']
          constructor
          · rintro ⟨h0, hrec⟩ i hi
            cases i with
            | zero => simpa using h0
            | succ j =>
                have hj : j < ps.length := by
                  simpa using Nat.lt_of_succ_lt_succ hi
                have := hrec j hj
                simp only [List.get?_cons_succ]
                have harg : k + ((j + 1 : Nat) : Int) = k + 1 + (j : Int) := by
                  push_cast
                  ring
                rw [harg]
                exact this
          · intro hall
            constructor
            · have := hall 0 (by simp)
              simpa using this
            · intro j hj
              have := hall (j + 1) (by simpa using Nat.succ_lt_succ hj)
              simp only [List.get?_cons_succ] at this
              have harg : k + ((j + 1 : Nat) : Int) = k + 1 + (j : Int) := by
                push_cast
                ring
              rw [harg] at this
              exact this

theorem trivial_iff_spec (qual : List Expr) (ptl ctl : List TargetEntry) :
    trivialSubqueryscan qual ptl ctl = true
      ↔ specPassthroughOK qual ptl ctl = true := by
  rw [trivialSubqueryscan, specPassthroughOK]
  by_cases hq : qual.isEmpty
  · rw [hq]
    simp only [Bool.not_true, Bool.false_eq_true, if_false, Bool.true_and]
    by_cases hlen : ptl.length = ctl.length
    · rw [if_neg (by simp [hlen])]
      rw [show (ptl.length == ctl.length) = true by simpa using hlen]
      simp only [Bool.true_and]
      rw [trivTl_iff ptl ctl 1 hlen]
      simp only [List.all_eq_true, List.mem_range]
      constructor
      · intro hall i hi
        have := hall i hi
        have harg : (1 : Int) + (i : Int) = (i : Int) + 1 := by ring
        rw [harg] at this
        exact this
      · intro hall i hi
        have := hall i hi
        have harg : (1 : Int) + (i : Int) = (i : Int) + 1 := by ring
        rw [harg]
        exact this
    · rw [if_pos (by simpa using hlen)]
      rw [show (ptl.length == ctl.length) = false by simpa using hlen]
      simp
  · rw [show qual.isEmpty = false from Bool.eq_false_iff.mpr hq]
    simp

theorem mergeLabels_labels :
    ∀ (ps cs : List TargetEntry) (i : Nat)
      (h2 : i < (mergeLabels ps cs).length) (h1 : i < ps.length),
      ((mergeLabels ps cs).get ⟨i, h2⟩).resname = (ps.get ⟨i, h1⟩).resname
      ∧ ((mergeLabels ps cs).get ⟨i, h2⟩).resorigtbl
          = (ps.get ⟨i, h1⟩).resorigtbl
      ∧ ((mergeLabels ps cs).get ⟨i, h2⟩).resorigcol
          = (ps.get ⟨i, h1⟩).resorigcol := by
  intro ps
  induction ps with
  | nil =>
      intro cs i h2 h1
      exact absurd h1 (by simp)
  | cons p ps ih =>
      intro cs i h2 h1
      cases cs with
      | nil => exact absurd h2 (by simp [mergeLabels])
      | cons c cs =>
          cases i with
          | zero => exact ⟨rfl, rfl, rfl⟩
          | succ j =>
              have h2' : j < (mergeLabels ps cs).length := by
                simpa [mergeLabels] using h2
              have h1' : j < ps.length := by
                simpa using Nat.lt_of_succ_lt_succ h1
              exact ih cs j h2' h1'

/-- C3: the subquery wrapper is eliminated exactly when the spec-side
    passthrough condition holds (`trivialSubqueryscan` coincides with the
    condition written from the spec): under the condition the child —
    carrying the wrapper's initplans prepended and the wrapper's per-position
    display labels (declared name and source provenance) — replaces the
    wrapper, and each pulled-up column's label equals the wrapper's original
    per-position value; otherwise the wrapper is kept as a subquery-scan node
    fixed like a scan (or the scan fixing fails). -/
theorem c3_wrapper_elimination (cat : Catalog) (g : Glob)
    (tl : List TargetEntry) (qual : List Expr) (relid : Nat) (ip : List Nat)
    (sub' : Plan) (r : Nat) :
    (trivialSubqueryscan qual tl sub'.targetlist = true
       ↔ specPassthroughOK qual tl sub'.targetlist = true)
    ∧ (specPassthroughOK qual tl sub'.targetlist = true →
        sqPostProcess cat g tl qual relid ip sub' r
          = .ok (g, (sub'.withTargetlist
              (mergeLabels tl sub'.targetlist)).prependInitPlans ip)
        ∧ ∀ i (h2 : i < (mergeLabels tl sub'.targetlist).length)
            (h1 : i < tl.length),
            ((mergeLabels tl sub'.targetlist).get ⟨i, h2⟩).resname
              = (tl.get ⟨i, h1⟩).resname
            ∧ ((mergeLabels tl sub'.targetlist).get ⟨i, h2⟩).resorigtbl
                = (tl.get ⟨i, h1⟩).resorigtbl
            ∧ ((mergeLabels tl sub'.targetlist).get ⟨i, h2⟩).resorigcol
                = (tl.get ⟨i, h1⟩).resorigcol)
    ∧ (specPassthroughOK qual tl sub'.targetlist = false →
        (∃ err, sqPostProcess cat g tl qual relid ip sub' r = .error err)
        ∨ (∃ g2 tl2 qual2,
            sqPostProcess cat g tl qual relid ip sub' r
              = .ok (g2, .subqueryScan tl2 qual2 (relid + r) ip sub' []
                       []))) := by
  refine ⟨trivial_iff_spec qual tl sub'.targetlist, fun hspec => ?_,
    fun hspec => ?_⟩
  · have htriv : trivialSubqueryscan qual tl sub'.targetlist = true :=
      (trivial_iff_spec qual tl sub'.targetlist).mpr hspec
    refine ⟨?_, fun i h2 h1 => mergeLabels_labels tl sub'.targetlist i h2 h1⟩
    rw [sqPostProcess, if_pos htriv]
  · have htriv : trivialSubqueryscan qual tl sub'.targetlist = false := by
      rw [Bool.eq_false_iff]
      intro hh
      rw [(trivial_iff_spec qual tl sub'.targetlist).mp hh] at hspec
      exact absurd hspec (by simp)
    rw [sqPostProcess, if_neg (by simp [htriv])]
    cases htl : fixScanTargetList cat r g tl with
    | error err => exact Or.inl ⟨err, by simp⟩
    | ok gtl =>
        obtain ⟨g1, tl1⟩ := gtl
        cases hq : fixScanExprMutatorList cat r g1 qual with
        | error err => exact Or.inl ⟨err, by simp [hq]⟩
        | ok gq =>
            obtain ⟨g2, qual2⟩ := gq
            exact Or.inr ⟨g2, tl1, qual2, by simp [hq]⟩

/-- A child output entry labelled (77, table 9, column 9). -/
def c3ChildTle : TargetEntry :=
  { expr := .var (mkV 1 1), resno := 1, resname := some 77,
    ressortgroupref := 0, resorigtbl := 9, resorigcol := 9, resjunk := false }

/-- The already-resolved child plan of the trivial wrapper. -/
def c3ChildScan : Plan := .seqScan [c3ChildTle] [] 1 [5]

/-- The wrapper's output entry: the same column, relabelled (88, 3, 4). -/
def c3WrapTle : TargetEntry :=
  { expr := .var (mkV 1 1), resno := 1, resname := some 88,
    ressortgroupref := 0, resorigtbl := 3, resorigcol := 4, resjunk := false }

/-- Witness for C3 at a concrete trivial wrapper: the condition holds, the
    child replaces the wrapper (initplans prepended, labels transferred),
    and the pulled-up column's visible label is the wrapper's (88, 3, 4). -/
theorem c3_wrapper_elimination_witness :
    specPassthroughOK [] [c3WrapTle] c3ChildScan.targetlist = true
    ∧ (sqPostProcess demoCat oneGlob [c3WrapTle] [] 2 [9] c3ChildScan 1
        = .ok (oneGlob, (c3ChildScan.withTargetlist
            (mergeLabels [c3WrapTle]
              c3ChildScan.targetlist)).prependInitPlans [9])
       ∧ ∀ i (h2 : i < (mergeLabels [c3WrapTle]
             c3ChildScan.targetlist).length) (h1 : i < [c3WrapTle].length),
           ((mergeLabels [c3WrapTle] c3ChildScan.targetlist).get
              ⟨i, h2⟩).resname = ([c3WrapTle].get ⟨i, h1⟩).resname
           ∧ ((mergeLabels [c3WrapTle] c3ChildScan.targetlist).get
                ⟨i, h2⟩).resorigtbl = ([c3WrapTle].get ⟨i, h1⟩).resorigtbl
           ∧ ((mergeLabels [c3WrapTle] c3ChildScan.targetlist).get
                ⟨i, h2⟩).resorigcol = ([c3WrapTle].get ⟨i, h1⟩).resorigcol) :=
  ⟨rfl, (c3_wrapper_elimination demoCat oneGlob [c3WrapTle] [] 2 [9]
      c3ChildScan 1).2.1 rfl⟩

/-- Relation-dependency entries are never removed: every OID present before
    a step is still present after it. -/
def relKeeps (g g' : Glob) : Prop :=
  ∀ x, x ∈ g.relationOids → x ∈ g'.relationOids

theorem relKeeps_refl (g : Glob) : relKeeps g g := fun _ h => h

theorem relKeeps_trans {a b c : Glob} (h1 : relKeeps a b)
    (h2 : relKeeps b c) : relKeeps a c := fun x h => h2 x (h1 x h)

theorem recordPFD_rel {cat : Catalog} {g : Glob} {f : Nat} {g' : Glob}
    (h : recordPlanFunctionDependency cat g f = .ok g') :
    g'.relationOids = g.relationOids := by
  rw [recordPlanFunctionDependency] at h
  by_cases hge : FirstBootstrapObjectId ≤ f
  · rw [if_pos hge] at h
    cases hcl : cat.procLookup f with
    | none => rw [hcl] at h; exact absurd h (by simp)
    | some t =>
        rw [hcl] at h
        rw [← Except.ok.inj h]
  · rw [if_neg hge] at h
    rw [← Except.ok.inj h]

theorem fixExprCommon_rel {cat : Catalog} {g : Glob} {e : Expr} {g' : Glob}
    {e' : Expr} (hok : fixExprCommon cat g e = .ok (g', e')) :
    relKeeps g g' := by
  intro x hx
  cases e with
  | aggref a b args =>
      rw [fixExprCommon] at hok
      obtain ⟨g1, hrec, hinj⟩ := bind_eq_ok hok
      have hg : g1 = g' := congrArg Prod.fst (Except.ok.inj hinj)
      rw [← hg, recordPFD_rel hrec]
      exact hx
  | funcExpr a b c args =>
      rw [fixExprCommon] at hok
      obtain ⟨g1, hrec, hinj⟩ := bind_eq_ok hok
      have hg : g1 = g' := congrArg Prod.fst (Except.ok.inj hinj)
      rw [← hg, recordPFD_rel hrec]
      exact hx
  | opExpr a b c d args =>
      rw [fixExprCommon] at hok
      obtain ⟨g1, hrec, hinj⟩ := bind_eq_ok hok
      have hg : g1 = g' := congrArg Prod.fst (Except.ok.inj hinj)
      rw [← hg, recordPFD_rel hrec]
      exact hx
  | const a b c =>
      rw [fixExprCommon] at hok
      by_cases hrc : isRegclassConst a c
      · rw [if_pos hrc] at hok
        have hg : ({ g with relationOids := g.relationOids ++ [b] } : Glob)
            = g' := congrArg Prod.fst (Except.ok.inj hok)
        rw [← hg]
        exact List.mem_append_left _ hx
      · rw [if_neg hrc] at hok
        have hg : g = g' := congrArg Prod.fst (Except.ok.inj hok)
        rw [← hg]
        exact hx
  | var v =>
      rw [fixExprCommon] at hok
      have hg : g = g' := congrArg Prod.fst (Except.ok.inj hok)
      rw [← hg]
      exact hx
  | placeHolderVar p =>
      rw [fixExprCommon] at hok
      have hg : g = g' := congrArg Prod.fst (Except.ok.inj hok)
      rw [← hg]
      exact hx

theorem fixScanExprWalker_rel :
    ∀ (cat : Catalog) (g : Glob) (e : Expr) (g' : Glob) (e' : Expr),
      fixScanExprWalker cat g e = .ok (g', e') → relKeeps g g' := by
  intro cat g e
  induction g, e using fixScanExprWalker.induct cat
    (motive_2 := fun g es => ∀ g' es',
      fixScanExprWalkerList cat g es = .ok (g', es') → relKeeps g g') with
  | case1 g v =>
      intro g' e' hok
      rw [fixScanExprWalker] at hok
      exact fixExprCommon_rel hok
  | case2 g a b c =>
      intro g' e' hok
      rw [fixScanExprWalker] at hok
      exact fixExprCommon_rel hok
  | case3 g a b c d args ih =>
      intro g' e' hok
      rw [fixScanExprWalker] at hok
      obtain ⟨⟨g1, e1⟩, hc, hok⟩ := bind_eq_ok hok
      obtain ⟨⟨g2, args'⟩, hl, hok⟩ := bind_eq_ok hok
      have hg : g2 = g' := congrArg Prod.fst (Except.ok.inj hok)
      rw [← hg]
      exact relKeeps_trans (fixExprCommon_rel hc) (ih g1 g2 args' hl)
  | case4 g a b c args ih =>
      intro g' e' hok
      rw [fixScanExprWalker] at hok
      obtain ⟨⟨g1, e1⟩, hc, hok⟩ := bind_eq_ok hok
      obtain ⟨⟨g2, args'⟩, hl, hok⟩ := bind_eq_ok hok
      have hg : g2 = g' := congrArg Prod.fst (Except.ok.inj hok)
      rw [← hg]
      exact relKeeps_trans (fixExprCommon_rel hc) (ih g1 g2 args' hl)
  | case5 g a b args ih =>
      intro g' e' hok
      rw [fixScanExprWalker] at hok
      obtain ⟨⟨g1, e1⟩, hc, hok⟩ := bind_eq_ok hok
      obtain ⟨⟨g2, args'⟩, hl, hok⟩ := bind_eq_ok hok
      have hg : g2 = g' := congrArg Prod.fst (Except.ok.inj hok)
      rw [← hg]
      exact relKeeps_trans (fixExprCommon_rel hc) (ih g1 g2 args' hl)
  | case6 g p ih =>
      intro g' e' hok
      rw [fixScanExprWalker] at hok
      obtain ⟨⟨g1, p'⟩, hp, hok⟩ := bind_eq_ok hok
      have hg : g1 = g' := congrArg Prod.fst (Except.ok.inj hok)
      rw [← hg]
      exact ih g1 p' hp
  | case7 g g' es' hok =>
      rw [fixScanExprWalkerList] at hok
      have hg : g = g' := congrArg Prod.fst (Except.ok.inj hok)
      rw [← hg]
      exact relKeeps_refl g
  | case8 g e es ihe ihes g' es' hok =>
      rw [fixScanExprWalkerList] at hok
      obtain ⟨⟨g1, e1⟩, he, hok⟩ := bind_eq_ok hok
      obtain ⟨⟨g2, es2⟩, hes, hok⟩ := bind_eq_ok hok
      have hg : g2 = g' := congrArg Prod.fst (Except.ok.inj hok)
      rw [← hg]
      exact relKeeps_trans (ihe g1 e1 he) (ihes g1 g2 es2 hes)

theorem fixScanExprMutator_rel :
    ∀ (cat : Catalog) (r : Nat) (g : Glob) (e : Expr) (g' : Glob)
      (e' : Expr),
      fixScanExprMutator cat r g e = .ok (g', e') → relKeeps g g' := by
  intro cat r g e
  induction g, e using fixScanExprMutator.induct cat r
    (motive_2 := fun g es => ∀ g' es',
      fixScanExprMutatorList cat r g es = .ok (g', es') → relKeeps g g') with
  | case1 g v v1 hle hnone =>
      intro g' e' hok
      rw [fixScanExprMutator_var] at hok
      rw [if_pos (show v.varattno ≤ FirstLowInvalidHeapAttributeNumber
            from hle)] at hok
      rw [show pseudoColLookup g (v.varno + r) v.varattno = none
            from hnone] at hok
      exact absurd hok (by simp)
  | case2 g v v1 hle defexpr hsome =>
      intro g' e' hok
      rw [fixScanExprMutator_var] at hok
      rw [if_pos (show v.varattno ≤ FirstLowInvalidHeapAttributeNumber
            from hle)] at hok
      rw [show pseudoColLookup g (v.varno + r) v.varattno = some defexpr
            from hsome] at hok
      exact fixScanExprWalker_rel cat g defexpr g' e' hok
  | case3 g v v1 hgt =>
      intro g' e' hok
      rw [fixScanExprMutator_var] at hok
      rw [if_neg (show ¬ v.varattno ≤ FirstLowInvalidHeapAttributeNumber
            from hgt)] at hok
      have hg : g = g' := congrArg Prod.fst (Except.ok.inj hok)
      rw [← hg]
      exact relKeeps_refl g
  | case4 g p ih =>
      intro g' e' hok
      rw [fixScanExprMutator] at hok
      exact ih g' e' hok
  | case5 g a b c =>
      intro g' e' hok
      rw [fixScanExprMutator] at hok
      exact fixExprCommon_rel hok
  | case6 g a b c d args ih =>
      intro g' e' hok
      rw [fixScanExprMutator] at hok
      obtain ⟨⟨g1, e1⟩, hc, hok⟩ := bind_eq_ok hok
      obtain ⟨⟨g2, args'⟩, hl, hok⟩ := bind_eq_ok hok
      have hg : g2 = g' := congrArg Prod.fst (Except.ok.inj hok)
      rw [← hg]
      exact relKeeps_trans (fixExprCommon_rel hc) (ih g1 g2 args' hl)
  | case7 g a b c args ih =>
      intro g' e' hok
      rw [fixScanExprMutator] at hok
      obtain ⟨⟨g1, e1⟩, hc, hok⟩ := bind_eq_ok hok
      obtain ⟨⟨g2, args'⟩, hl, hok⟩ := bind_eq_ok hok
      have hg : g2 = g' := congrArg Prod.fst (Except.ok.inj hok)
      rw [← hg]
      exact relKeeps_trans (fixExprCommon_rel hc) (ih g1 g2 args' hl)
  | case8 g a b args ih =>
      intro g' e' hok
      rw [fixScanExprMutator] at hok
      obtain ⟨⟨g1, e1⟩, hc, hok⟩ := bind_eq_ok hok
      obtain ⟨⟨g2, args'⟩, hl, hok⟩ := bind_eq_ok hok
      have hg : g2 = g' := congrArg Prod.fst (Except.ok.inj hok)
      rw [← hg]
      exact relKeeps_trans (fixExprCommon_rel hc) (ih g1 g2 args' hl)
  | case9 g g' es' hok =>
      rw [fixScanExprMutatorList] at hok
      have hg : g = g' := congrArg Prod.fst (Except.ok.inj hok)
      rw [← hg]
      exact relKeeps_refl g
  | case10 g e es ihe ihes g' es' hok =>
      rw [fixScanExprMutatorList] at hok
      obtain ⟨⟨g1, e1⟩, he, hok⟩ := bind_eq_ok hok
      obtain ⟨⟨g2, es2⟩, hes, hok⟩ := bind_eq_ok hok
      have hg : g2 = g' := congrArg Prod.fst (Except.ok.inj hok)
      rw [← hg]
      exact relKeeps_trans (ihe g1 e1 he) (ihes g1 g2 es2 hes)

theorem fixScanExprMutatorList_rel :
    ∀ (cat : Catalog) (r : Nat) (es : List Expr) (g g' : Glob)
      (es' : List Expr),
      fixScanExprMutatorList cat r g es = .ok (g', es') → relKeeps g g' := by
  intro cat r es
  induction es with
  | nil =>
      intro g g' es' hok
      rw [fixScanExprMutatorList] at hok
      have hg : g = g' := congrArg Prod.fst (Except.ok.inj hok)
      rw [← hg]
      exact relKeeps_refl g
  | cons e es ih =>
      intro g g' es' hok
      rw [fixScanExprMutatorList] at hok
      obtain ⟨⟨g1, e1⟩, he, hok⟩ := bind_eq_ok hok
      obtain ⟨⟨g2, es2⟩, hes, hok⟩ := bind_eq_ok hok
      have hg : g2 = g' := congrArg Prod.fst (Except.ok.inj hok)
      rw [← hg]
      exact relKeeps_trans (fixScanExprMutator_rel cat r g e g1 e1 he)
        (ih g1 g2 es2 hes)

theorem fixScanTargetList_rel :
    ∀ (cat : Catalog) (r : Nat) (tl : List TargetEntry) (g g' : Glob)
      (tl' : List TargetEntry),
      fixScanTargetList cat r g tl = .ok (g', tl') → relKeeps g g' := by
  intro cat r tl
  induction tl with
  | nil =>
      intro g g' tl' hok
      rw [fixScanTargetList] at hok
      have hg : g = g' := congrArg Prod.fst (Except.ok.inj hok)
      rw [← hg]
      exact relKeeps_refl g
  | cons tle tl ih =>
      intro g g' tl' hok
      rw [fixScanTargetList] at hok
      obtain ⟨⟨g1, e1⟩, he, hok⟩ := bind_eq_ok hok
      obtain ⟨⟨g2, tl2⟩, htl, hok⟩ := bind_eq_ok hok
      have hg : g2 = g' := congrArg Prod.fst (Except.ok.inj hok)
      rw [← hg]
      exact relKeeps_trans (fixScanExprMutator_rel cat r g tle.expr g1 e1 he)
        (ih g1 g2 tl2 htl)

theorem fixJoinExprMutator_rel :
    ∀ (cat : Catalog) (ctx : FixJoinCtx) (g : Glob) (e : Expr) (g' : Glob)
      (e' : Expr),
      fixJoinExprMutator cat ctx g e = .ok (g', e') → relKeeps g g' := by
  intro cat ctx g e
  induction g, e using fixJoinExprMutator.induct cat ctx
    (motive_2 := fun g es => ∀ g' es',
      fixJoinExprMutatorList cat ctx g es = .ok (g', es') →
        relKeeps g g') with
  | case1 g v nv h1 =>
      intro g' e' hok
      rw [fixJoinExprMutator, h1] at hok
      have hg : g = g' := congrArg Prod.fst (Except.ok.inj hok)
      rw [← hg]
      exact relKeeps_refl g
  | case2 g v h1 nv h2 =>
      intro g' e' hok
      rw [fixJoinExprMutator, h1, h2] at hok
      have hg : g = g' := congrArg Prod.fst (Except.ok.inj hok)
      rw [← hg]
      exact relKeeps_refl g
  | case3 g v h1 h2 h3 =>
      intro g' e' hok
      rw [fixJoinExprMutator, h1, h2, if_pos h3] at hok
      have hg : g = g' := congrArg Prod.fst (Except.ok.inj hok)
      rw [← hg]
      exact relKeeps_refl g
  | case4 g v h1 h2 h3 =>
      intro g' e' hok
      rw [fixJoinExprMutator, h1, h2, if_neg h3] at hok
      exact absurd hok (by simp)
  | case5 g p nv h1 =>
      intro g' e' hok
      rw [fixJoinExprMutator, h1] at hok
      have hg : g = g' := congrArg Prod.fst (Except.ok.inj hok)
      rw [← hg]
      exact relKeeps_refl g
  | case6 g p h1 nv h2 =>
      intro g' e' hok
      rw [fixJoinExprMutator, h1, h2] at hok
      have hg : g = g' := congrArg Prod.fst (Except.ok.inj hok)
      rw [← hg]
      exact relKeeps_refl g
  | case7 g p h1 h2 ih =>
      intro g' e' hok
      rw [fixJoinExprMutator, h1, h2] at hok
      exact ih g' e' hok
  | case8 g a b c nv h1 =>
      intro g' e' hok
      rw [fixJoinExprMutator, h1] at hok
      have hg : g = g' := congrArg Prod.fst (Except.ok.inj hok)
      rw [← hg]
      exact relKeeps_refl g
  | case9 g a b c h1 =>
      intro g' e' hok
      rw [fixJoinExprMutator, h1] at hok
      exact fixExprCommon_rel hok
  | case10 g a b c d args nv h1 =>
      intro g' e' hok
      rw [fixJoinExprMutator, h1] at hok
      have hg : g = g' := congrArg Prod.fst (Except.ok.inj hok)
      rw [← hg]
      exact relKeeps_refl g
  | case11 g a b c d args h1 ih =>
      intro g' e' hok
      rw [fixJoinExprMutator, h1] at hok
      obtain ⟨⟨g1, e1⟩, hc, hok⟩ := bind_eq_ok hok
      obtain ⟨⟨g2, args'⟩, hl, hok⟩ := bind_eq_ok hok
      have hg : g2 = g' := congrArg Prod.fst (Except.ok.inj hok)
      rw [← hg]
      exact relKeeps_trans (fixExprCommon_rel hc) (ih g1 g2 args' hl)
  | case12 g a b c args nv h1 =>
      intro g' e' hok
      rw [fixJoinExprMutator, h1] at hok
      have hg : g = g' := congrArg Prod.fst (Except.ok.inj hok)
      rw [← hg]
      exact relKeeps_refl g
  | case13 g a b c args h1 ih =>
      intro g' e' hok
      rw [fixJoinExprMutator, h1] at hok
      obtain ⟨⟨g1, e1⟩, hc, hok⟩ := bind_eq_ok hok
      obtain ⟨⟨g2, args'⟩, hl, hok⟩ := bind_eq_ok hok
      have hg : g2 = g' := congrArg Prod.fst (Except.ok.inj hok)
      rw [← hg]
      exact relKeeps_trans (fixExprCommon_rel hc) (ih g1 g2 args' hl)
  | case14 g a b args nv h1 =>
      intro g' e' hok
      rw [fixJoinExprMutator, h1] at hok
      have hg : g = g' := congrArg Prod.fst (Except.ok.inj hok)
      rw [← hg]
      exact relKeeps_refl g
  | case15 g a b args h1 ih =>
      intro g' e' hok
      rw [fixJoinExprMutator, h1] at hok
      obtain ⟨⟨g1, e1⟩, hc, hok⟩ := bind_eq_ok hok
      obtain ⟨⟨g2, args'⟩, hl, hok⟩ := bind_eq_ok hok
      have hg : g2 = g' := congrArg Prod.fst (Except.ok.inj hok)
      rw [← hg]
      exact relKeeps_trans (fixExprCommon_rel hc) (ih g1 g2 args' hl)
  | case16 g g' es' hok =>
      rw [fixJoinExprMutatorList] at hok
      have hg : g = g' := congrArg Prod.fst (Except.ok.inj hok)
      rw [← hg]
      exact relKeeps_refl g
  | case17 g e es ihe ihes g' es' hok =>
      rw [fixJoinExprMutatorList] at hok
      obtain ⟨⟨g1, e1⟩, he, hok⟩ := bind_eq_ok hok
      obtain ⟨⟨g2, es2⟩, hes, hok⟩ := bind_eq_ok hok
      have hg : g2 = g' := congrArg Prod.fst (Except.ok.inj hok)
      rw [← hg]
      exact relKeeps_trans (ihe g1 e1 he) (ihes g1 g2 es2 hes)

theorem fixJoinExprMutatorList_rel :
    ∀ (cat : Catalog) (ctx : FixJoinCtx) (es : List Expr) (g g' : Glob)
      (es' : List Expr),
      fixJoinExprMutatorList cat ctx g es = .ok (g', es') →
        relKeeps g g' := by
  intro cat ctx es
  induction es with
  | nil =>
      intro g g' es' hok
      rw [fixJoinExprMutatorList] at hok
      have hg : g = g' := congrArg Prod.fst (Except.ok.inj hok)
      rw [← hg]
      exact relKeeps_refl g
  | cons e es ih =>
      intro g g' es' hok
      rw [fixJoinExprMutatorList] at hok
      obtain ⟨⟨g1, e1⟩, he, hok⟩ := bind_eq_ok hok
      obtain ⟨⟨g2, es2⟩, hes, hok⟩ := bind_eq_ok hok
      have hg : g2 = g' := congrArg Prod.fst (Except.ok.inj hok)
      rw [← hg]
      exact relKeeps_trans (fixJoinExprMutator_rel cat ctx g e g1 e1 he)
        (ih g1 g2 es2 hes)

theorem fixJoinTargetList_rel :
    ∀ (cat : Catalog) (ctx : FixJoinCtx) (tl : List TargetEntry)
      (g g' : Glob) (tl' : List TargetEntry),
      fixJoinTargetList cat ctx g tl = .ok (g', tl') → relKeeps g g' := by
  intro cat ctx tl
  induction tl with
  | nil =>
      intro g g' tl' hok
      rw [fixJoinTargetList] at hok
      have hg : g = g' := congrArg Prod.fst (Except.ok.inj hok)
      rw [← hg]
      exact relKeeps_refl g
  | cons tle tl ih =>
      intro g g' tl' hok
      rw [fixJoinTargetList] at hok
      obtain ⟨⟨g1, e1⟩, he, hok⟩ := bind_eq_ok hok
      obtain ⟨⟨g2, tl2⟩, htl, hok⟩ := bind_eq_ok hok
      have hg : g2 = g' := congrArg Prod.fst (Except.ok.inj hok)
      rw [← hg]
      exact relKeeps_trans
        (fixJoinExprMutator_rel cat ctx g tle.expr g1 e1 he)
        (ih g1 g2 tl2 htl)

theorem fixHashclauses_rel :
    ∀ (cat : Catalog) (clauses : List Expr) (g : Glob)
      (outer : IndexedTlist) (inner : Option IndexedTlist) (acc r : Nat)
      (g' : Glob) (clauses' : List Expr),
      fixHashclauses cat g clauses outer inner acc r = .ok (g', clauses') →
        relKeeps g g' := by
  intro cat clauses
  induction clauses with
  | nil =>
      intro g outer inner acc r g' cl' hok
      rw [fixHashclauses] at hok
      have hg : g = g' := congrArg Prod.fst (Except.ok.inj hok)
      rw [← hg]
      exact relKeeps_refl g
  | cons clause rest ih =>
      intro g outer inner acc r g' cl' hok
      cases clause with
      | opExpr opno fid rty rs args =>
          cases args with
          | nil => simp [fixHashclauses] at hok
          | cons a1 args1 =>
            cases args1 with
            | nil => simp [fixHashclauses] at hok
            | cons a2 args2 =>
              cases args2 with
              | cons a3 args3 => simp [fixHashclauses] at hok
              | nil =>
                  rw [fixHashclauses] at hok
                  obtain ⟨⟨g1, b1⟩, h1, hok⟩ := bind_eq_ok hok
                  obtain ⟨⟨g2, b2⟩, h2, hok⟩ := bind_eq_ok hok
                  obtain ⟨⟨g3, b3⟩, h3, hok⟩ := bind_eq_ok hok
                  obtain ⟨⟨g4, b4⟩, h4, hok⟩ := bind_eq_ok hok
                  have hg : g4 = g' := congrArg Prod.fst (Except.ok.inj hok)
                  rw [← hg]
                  exact relKeeps_trans
                    (fixJoinExprMutator_rel cat _ g a1 g1 b1 h1)
                    (relKeeps_trans
                      (fixJoinExprMutator_rel cat _ g1 a2 g2 b2 h2)
                      (relKeeps_trans (fixExprCommon_rel h3)
                        (ih g3 outer inner acc r g4 b4 h4)))
      | var v => simp [fixHashclauses] at hok
      | const a b c => simp [fixHashclauses] at hok
      | funcExpr a b c args => simp [fixHashclauses] at hok
      | aggref a b args => simp [fixHashclauses] at hok
      | placeHolderVar p => simp [fixHashclauses] at hok

theorem fixUpperExprMutator_rel :
    ∀ (cat : Catalog) (itlist : IndexedTlist) (r : Nat) (g : Glob)
      (e : Expr) (g' : Glob) (e' : Expr),
      fixUpperExprMutator cat itlist r g e = .ok (g', e') →
        relKeeps g g' := by
  intro cat itlist r g e
  induction g, e using fixUpperExprMutator.induct cat itlist r
    (motive_2 := fun g es => ∀ g' es',
      fixUpperExprMutatorList cat itlist r g es = .ok (g', es') →
        relKeeps g g') with
  | case1 g v nv h1 =>
      intro g' e' hok
      rw [fixUpperExprMutator, h1] at hok
      have hg : g = g' := congrArg Prod.fst (Except.ok.inj hok)
      rw [← hg]
      exact relKeeps_refl g
  | case2 g v h1 =>
      intro g' e' hok
      rw [fixUpperExprMutator, h1] at hok
      exact absurd hok (by simp)
  | case3 g p nv h1 =>
      intro g' e' hok
      rw [fixUpperExprMutator, h1] at hok
      have hg : g = g' := congrArg Prod.fst (Except.ok.inj hok)
      rw [← hg]
      exact relKeeps_refl g
  | case4 g p h1 ih =>
      intro g' e' hok
      rw [fixUpperExprMutator, h1] at hok
      exact ih g' e' hok
  | case5 g a b c nv h1 =>
      intro g' e' hok
      rw [fixUpperExprMutator, h1] at hok
      have hg : g = g' := congrArg Prod.fst (Except.ok.inj hok)
      rw [← hg]
      exact relKeeps_refl g
  | case6 g a b c h1 =>
      intro g' e' hok
      rw [fixUpperExprMutator, h1] at hok
      exact fixExprCommon_rel hok
  | case7 g a b c d args nv h1 =>
      intro g' e' hok
      rw [fixUpperExprMutator, h1] at hok
      have hg : g = g' := congrArg Prod.fst (Except.ok.inj hok)
      rw [← hg]
      exact relKeeps_refl g
  | case8 g a b c d args h1 ih =>
      intro g' e' hok
      rw [fixUpperExprMutator, h1] at hok
      obtain ⟨⟨g1, e1⟩, hc, hok⟩ := bind_eq_ok hok
      obtain ⟨⟨g2, args'⟩, hl, hok⟩ := bind_eq_ok hok
      have hg : g2 = g' := congrArg Prod.fst (Except.ok.inj hok)
      rw [← hg]
      exact relKeeps_trans (fixExprCommon_rel hc) (ih g1 g2 args' hl)
  | case9 g a b c args nv h1 =>
      intro g' e' hok
      rw [fixUpperExprMutator, h1] at hok
      have hg : g = g' := congrArg Prod.fst (Except.ok.inj hok)
      rw [← hg]
      exact relKeeps_refl g
  | case10 g a b c args h1 ih =>
      intro g' e' hok
      rw [fixUpperExprMutator, h1] at hok
      obtain ⟨⟨g1, e1⟩, hc, hok⟩ := bind_eq_ok hok
      obtain ⟨⟨g2, args'⟩, hl, hok⟩ := bind_eq_ok hok
      have hg : g2 = g' := congrArg Prod.fst (Except.ok.inj hok)
      rw [← hg]
      exact relKeeps_trans (fixExprCommon_rel hc) (ih g1 g2 args' hl)
  | case11 g a b args nv h1 =>
      intro g' e' hok
      rw [fixUpperExprMutator, h1] at hok
      have hg : g = g' := congrArg Prod.fst (Except.ok.inj hok)
      rw [← hg]
      exact relKeeps_refl g
  | case12 g a b args h1 ih =>
      intro g' e' hok
      rw [fixUpperExprMutator, h1] at hok
      obtain ⟨⟨g1, e1⟩, hc, hok⟩ := bind_eq_ok hok
      obtain ⟨⟨g2, args'⟩, hl, hok⟩ := bind_eq_ok hok
      have hg : g2 = g' := congrArg Prod.fst (Except.ok.inj hok)
      rw [← hg]
      exact relKeeps_trans (fixExprCommon_rel hc) (ih g1 g2 args' hl)
  | case13 g g' es' hok =>
      rw [fixUpperExprMutatorList] at hok
      have hg : g = g' := congrArg Prod.fst (Except.ok.inj hok)
      rw [← hg]
      exact relKeeps_refl g
  | case14 g e es ihe ihes g' es' hok =>
      rw [fixUpperExprMutatorList] at hok
      obtain ⟨⟨g1, e1⟩, he, hok⟩ := bind_eq_ok hok
      obtain ⟨⟨g2, es2⟩, hes, hok⟩ := bind_eq_ok hok
      have hg : g2 = g' := congrArg Prod.fst (Except.ok.inj hok)
      rw [← hg]
      exact relKeeps_trans (ihe g1 e1 he) (ihes g1 g2 es2 hes)

theorem fixUpperExprMutatorList_rel :
    ∀ (cat : Catalog) (itlist : IndexedTlist) (r : Nat) (es : List Expr)
      (g g' : Glob) (es' : List Expr),
      fixUpperExprMutatorList cat itlist r g es = .ok (g', es') →
        relKeeps g g' := by
  intro cat itlist r es
  induction es with
  | nil =>
      intro g g' es' hok
      rw [fixUpperExprMutatorList] at hok
      have hg : g = g' := congrArg Prod.fst (Except.ok.inj hok)
      rw [← hg]
      exact relKeeps_refl g
  | cons e es ih =>
      intro g g' es' hok
      rw [fixUpperExprMutatorList] at hok
      obtain ⟨⟨g1, e1⟩, he, hok⟩ := bind_eq_ok hok
      obtain ⟨⟨g2, es2⟩, hes, hok⟩ := bind_eq_ok hok
      have hg : g2 = g' := congrArg Prod.fst (Except.ok.inj hok)
      rw [← hg]
      exact relKeeps_trans (fixUpperExprMutator_rel cat itlist r g e g1 e1 he)
        (ih g1 g2 es2 hes)

theorem setUpperReferencesTl_rel :
    ∀ (cat : Catalog) (itlist : IndexedTlist) (r : Nat)
      (tl : List TargetEntry) (g g' : Glob) (tl' : List TargetEntry),
      setUpperReferencesTl cat itlist r g tl = .ok (g', tl') →
        relKeeps g g' := by
  intro cat itlist r tl
  induction tl with
  | nil =>
      intro g g' tl' hok
      rw [setUpperReferencesTl] at hok
      have hg : g = g' := congrArg Prod.fst (Except.ok.inj hok)
      rw [← hg]
      exact relKeeps_refl g
  | cons tle tl ih =>
      intro g g' tl' hok
      rw [setUpperReferencesTl] at hok
      by_cases hc : (tle.ressortgroupref != 0 && !tle.expr.isVarNode) = true
      · rw [if_pos hc] at hok
        cases hs : searchIndexedTlistForSortgroupref tle.expr
            tle.ressortgroupref itlist OUTER_VARNO with
        | some nv =>
            rw [hs] at hok
            obtain ⟨⟨g1, ne⟩, hne, hok⟩ := bind_eq_ok hok
            obtain ⟨⟨g2, tl2⟩, htl, hok⟩ := bind_eq_ok hok
            have hg : g2 = g' := congrArg Prod.fst (Except.ok.inj hok)
            rw [← hg]
            have hg1 : g = g1 := congrArg Prod.fst (Except.ok.inj hne)
            rw [hg1]
            exact ih g1 g2 tl2 htl
        | none =>
            rw [hs] at hok
            obtain ⟨⟨g1, ne⟩, hne, hok⟩ := bind_eq_ok hok
            obtain ⟨⟨g2, tl2⟩, htl, hok⟩ := bind_eq_ok hok
            have hg : g2 = g' := congrArg Prod.fst (Except.ok.inj hok)
            rw [← hg]
            exact relKeeps_trans
              (fixUpperExprMutator_rel cat itlist r g tle.expr g1 ne hne)
              (ih g1 g2 tl2 htl)
      · rw [if_neg hc] at hok
        obtain ⟨⟨g1, ne⟩, hne, hok⟩ := bind_eq_ok hok
        obtain ⟨⟨g2, tl2⟩, htl, hok⟩ := bind_eq_ok hok
        have hg : g2 = g' := congrArg Prod.fst (Except.ok.inj hok)
        rw [← hg]
        exact relKeeps_trans
          (fixUpperExprMutator_rel cat itlist r g tle.expr g1 ne hne)
          (ih g1 g2 tl2 htl)

theorem setUpperReferences_rel :
    ∀ (cat : Catalog) (g : Glob) (tl : List TargetEntry) (qual : List Expr)
      (childTl : List TargetEntry) (r : Nat) (g' : Glob)
      (tl' : List TargetEntry) (qual' : List Expr),
      setUpperReferences cat g tl qual childTl r = .ok (g', tl', qual') →
        relKeeps g g' := by
  intro cat g tl qual childTl r g' tl' qual' hok
  rw [setUpperReferences] at hok
  obtain ⟨⟨g1, tl1⟩, htl, hok⟩ := bind_eq_ok hok
  obtain ⟨⟨g2, q2⟩, hq, hok⟩ := bind_eq_ok hok
  have hg : g2 = g' := congrArg Prod.fst (Except.ok.inj hok)
  rw [← hg]
  exact relKeeps_trans
    (setUpperReferencesTl_rel cat (buildTlistIndex childTl) r tl g g1 tl1 htl)
    (fixUpperExprMutatorList_rel cat (buildTlistIndex childTl) r qual
      g1 g2 q2 hq)

theorem sqPostProcess_rel :
    ∀ (cat : Catalog) (g : Glob) (tl : List TargetEntry) (qual : List Expr)
      (relid : Nat) (ip : List Nat) (sub' : Plan) (r : Nat) (g' : Glob)
      (p' : Plan),
      sqPostProcess cat g tl qual relid ip sub' r = .ok (g', p') →
        relKeeps g g' := by
  intro cat g tl qual relid ip sub' r g' p' hok
  rw [sqPostProcess] at hok
  by_cases ht : trivialSubqueryscan qual tl sub'.targetlist = true
  · rw [if_pos ht] at hok
    have hg : g = g' := congrArg Prod.fst (Except.ok.inj hok)
    rw [← hg]
    exact relKeeps_refl g
  · rw [if_neg ht] at hok
    obtain ⟨⟨g1, tl1⟩, htl, hok⟩ := bind_eq_ok hok
    obtain ⟨⟨g2, q2⟩, hq, hok⟩ := bind_eq_ok hok
    have hg : g2 = g' := congrArg Prod.fst (Except.ok.inj hok)
    rw [← hg]
    exact relKeeps_trans (fixScanTargetList_rel cat r tl g g1 tl1 htl)
      (fixScanExprMutatorList_rel cat r qual g1 g2 q2 hq)

theorem flattenRtable_rel :
    ∀ (rtable : List RangeTblEntry) (g : Glob),
      relKeeps g (flattenRtable g rtable) := by
  intro rtable
  induction rtable with
  | nil =>
      intro g
      rw [flattenRtable]
      exact relKeeps_refl g
  | cons rte rest ih =>
      intro g
      rw [flattenRtable]
      refine relKeeps_trans ?_ (ih _)
      intro x hx
      show x ∈ (if rte.rtekind == RTEKind.relation then
                  g.relationOids ++ [rte.relid]
                else g.relationOids)
      by_cases hk : (rte.rtekind == RTEKind.relation) = true
      · rw [if_pos hk]
        exact List.mem_append_left _ hx
      · rw [if_neg hk]
        exact hx

theorem flattenRtable_mem :
    ∀ (rtable : List RangeTblEntry) (g : Glob) (rte : RangeTblEntry),
      rte ∈ rtable → rte.rtekind = RTEKind.relation →
        rte.relid ∈ (flattenRtable g rtable).relationOids := by
  intro rtable
  induction rtable with
  | nil =>
      intro g rte hmem _
      exact absurd hmem (List.not_mem_nil rte)
  | cons r0 rest ih =>
      intro g rte hmem hkind
      rw [flattenRtable]
      cases List.mem_cons.mp hmem with
      | inl heq =>
          subst heq
          refine flattenRtable_rel rest _ rte.relid ?_
          show rte.relid ∈ (if rte.rtekind == RTEKind.relation then
                              g.relationOids ++ [rte.relid]
                            else g.relationOids)
          rw [hkind]
          simp
      | inr hmem' =>
          exact ih _ rte hmem' hkind

theorem flattenRowmarks_rel :
    ∀ (rms : List PlanRowMark) (g : Glob) (r : Nat),
      (flattenRowmarks g r rms).relationOids = g.relationOids := by
  intro rms
  induction rms with
  | nil =>
      intro g r
      rw [flattenRowmarks]
  | cons rc rest ih =>
      intro g r
      rw [flattenRowmarks]
      exact ih _ r

theorem setPlanRefs_rel_all :
    ∀ (fuel : Nat) (cat : Catalog),
      (∀ (g : Glob) (plan : Plan) (r : Nat) (g' : Glob) (p' : Plan),
        setPlanRefs fuel cat g plan r = .ok (g', p') → relKeeps g g')
      ∧ (∀ (g : Glob) (plans : List Plan) (r : Nat) (g' : Glob)
          (ps' : List Plan),
        setPlanRefsList fuel cat g plans r = .ok (g', ps') → relKeeps g g')
      ∧ (∀ (g : Glob) (plan : Plan) (r : Nat) (g' : Glob) (p' : Plan),
        cdbInsertResultNode fuel cat g plan r = .ok (g', p') → relKeeps g g')
      ∧ (∀ (g : Glob) (plan : Plan) (rt : List RangeTblEntry)
          (rm : List PlanRowMark) (g' : Glob) (p' : Plan),
        setPlanReferences fuel cat g plan rt rm = .ok (g', p') →
          relKeeps g g') := by
  intro fuel cat
  induction fuel with
  | zero =>
      refine ⟨?_, ?_, ?_, ?_⟩
      · intro g plan r g' p' hok
        rw [setPlanRefs] at hok
        exact absurd hok (by simp)
      · intro g plans r g' ps' hok
        rw [setPlanRefsList] at hok
        exact absurd hok (by simp)
      · intro g plan r g' p' hok
        rw [cdbInsertResultNode] at hok
        exact absurd hok (by simp)
      · intro g plan rt rm g' p' hok
        rw [setPlanReferences] at hok
        exact absurd hok (by simp)
  | succ fuel ih =>
      obtain ⟨ihP, ihL, ihC, ihR⟩ := ih
      refine ⟨?_, ?_, ?_, ?_⟩
      · intro g plan r g' p' hok
        cases plan with
        | seqScan tl qual relid ip =>
            rw [setPlanRefs] at hok
            by_cases hfe : cdbExprRequiresFullEval tl = true
            · rw [if_pos hfe] at hok
              exact ihC g _ r g' p' hok
            · rw [if_neg hfe] at hok
              obtain ⟨⟨g1, tl1⟩, h1, hok⟩ := bind_eq_ok hok
              obtain ⟨⟨g2, q2⟩, h2, hok⟩ := bind_eq_ok hok
              have hg : g2 = g' := congrArg Prod.fst (Except.ok.inj hok)
              rw [← hg]
              exact relKeeps_trans
                (fixScanTargetList_rel cat r tl g g1 tl1 h1)
                (fixScanExprMutatorList_rel cat r qual g1 g2 q2 h2)
        | cteScan tl qual relid ip =>
            rw [setPlanRefs] at hok
            obtain ⟨⟨g1, tl1⟩, h1, hok⟩ := bind_eq_ok hok
            obtain ⟨⟨g2, q2⟩, h2, hok⟩ := bind_eq_ok hok
            have hg : g2 = g' := congrArg Prod.fst (Except.ok.inj hok)
            rw [← hg]
            exact relKeeps_trans
              (fixScanTargetList_rel cat r tl g g1 tl1 h1)
              (fixScanExprMutatorList_rel cat r qual g1 g2 q2 h2)
        | subqueryScan tl qual relid ip sub subrt subrm =>
            rw [setPlanRefs] at hok
            by_cases hfe : cdbExprRequiresFullEval tl = true
            · rw [if_pos hfe] at hok
              exact ihC g _ r g' p' hok
            · rw [if_neg hfe] at hok
              obtain ⟨⟨g1, sub1⟩, h1, hok⟩ := bind_eq_ok hok
              exact relKeeps_trans (ihR g sub subrt subrm g1 sub1 h1)
                (sqPostProcess_rel cat g1 tl qual relid ip sub1 r g' p' hok)
        | nestLoop tl qual joinqual ip l rr =>
            rw [setPlanRefs] at hok
            by_cases hfe : cdbExprRequiresFullEval tl = true
            · rw [if_pos hfe] at hok
              exact ihC g _ r g' p' hok
            · rw [if_neg hfe] at hok
              obtain ⟨⟨g1, tl1⟩, h1, hok⟩ := bind_eq_ok hok
              obtain ⟨⟨g2, q2⟩, h2, hok⟩ := bind_eq_ok hok
              obtain ⟨⟨g3, jq3⟩, h3, hok⟩ := bind_eq_ok hok
              obtain ⟨⟨g4, l4⟩, h4, hok⟩ := bind_eq_ok hok
              obtain ⟨⟨g5, r5⟩, h5, hok⟩ := bind_eq_ok hok
              have hg : g5 = g' := congrArg Prod.fst (Except.ok.inj hok)
              rw [← hg]
              exact relKeeps_trans (fixJoinTargetList_rel cat _ tl g g1 tl1 h1)
                (relKeeps_trans
                  (fixJoinExprMutatorList_rel cat _ qual g1 g2 q2 h2)
                  (relKeeps_trans
                    (fixJoinExprMutatorList_rel cat _ joinqual g2 g3 jq3 h3)
                    (relKeeps_trans (ihP g3 l r g4 l4 h4)
                      (ihP g4 rr r g5 r5 h5))))
        | hashJoin tl qual joinqual hcs hqcs ip l rr =>
            rw [setPlanRefs] at hok
            by_cases hfe : cdbExprRequiresFullEval tl = true
            · rw [if_pos hfe] at hok
              exact ihC g _ r g' p' hok
            · rw [if_neg hfe] at hok
              obtain ⟨⟨g1, tl1⟩, h1, hok⟩ := bind_eq_ok hok
              obtain ⟨⟨g2, q2⟩, h2, hok⟩ := bind_eq_ok hok
              obtain ⟨⟨g3, jq3⟩, h3, hok⟩ := bind_eq_ok hok
              obtain ⟨⟨g4, hc4⟩, h4, hok⟩ := bind_eq_ok hok
              obtain ⟨⟨g5, hq5⟩, h5, hok⟩ := bind_eq_ok hok
              obtain ⟨⟨g6, l6⟩, h6, hok⟩ := bind_eq_ok hok
              obtain ⟨⟨g7, r7⟩, h7, hok⟩ := bind_eq_ok hok
              have hg : g7 = g' := congrArg Prod.fst (Except.ok.inj hok)
              rw [← hg]
              exact relKeeps_trans (fixJoinTargetList_rel cat _ tl g g1 tl1 h1)
                (relKeeps_trans
                  (fixJoinExprMutatorList_rel cat _ qual g1 g2 q2 h2)
                  (relKeeps_trans
                    (fixJoinExprMutatorList_rel cat _ joinqual g2 g3 jq3 h3)
                    (relKeeps_trans
                      (fixHashclauses_rel cat hcs g3 _ _ 0 r g4 hc4 h4)
                      (relKeeps_trans
                        (fixJoinExprMutatorList_rel cat _ hqcs g4 g5 hq5 h5)
                        (relKeeps_trans (ihP g5 l r g6 l6 h6)
                          (ihP g6 rr r g7 r7 h7))))))
        | agg tl qual ip l =>
            rw [setPlanRefs] at hok
            obtain ⟨⟨g1, tl1, q1⟩, h1, hok⟩ := bind_eq_ok hok
            obtain ⟨⟨g2, l2⟩, h2, hok⟩ := bind_eq_ok hok
            have hg : g2 = g' := congrArg Prod.fst (Except.ok.inj hok)
            rw [← hg]
            exact relKeeps_trans
              (setUpperReferences_rel cat g tl qual l.targetlist r g1 tl1 q1
                h1)
              (ihP g1 l r g2 l2 h2)
        | sort tl qual ip l =>
            rw [setPlanRefs] at hok
            obtain ⟨⟨g1, l1⟩, h1, hok⟩ := bind_eq_ok hok
            have hg : g1 = g' := congrArg Prod.fst (Except.ok.inj hok)
            rw [← hg]
            exact ihP g l r g1 l1 h1
        | append tl qual ip plans =>
            rw [setPlanRefs] at hok
            obtain ⟨⟨g1, ps1⟩, h1, hok⟩ := bind_eq_ok hok
            have hg : g1 = g' := congrArg Prod.fst (Except.ok.inj hok)
            rw [← hg]
            exact ihL g plans r g1 ps1 h1
        | result tl qual rcq ip lt =>
            cases lt with
            | some l =>
                rw [setPlanRefs] at hok
                obtain ⟨⟨g1, tl1, q1⟩, h1, hok⟩ := bind_eq_ok hok
                obtain ⟨⟨g2, tl2⟩, h2, hok⟩ := bind_eq_ok hok
                obtain ⟨⟨g3, q3⟩, h3, hok⟩ := bind_eq_ok hok
                obtain ⟨⟨g4, rcq4⟩, h4, hok⟩ := bind_eq_ok hok
                obtain ⟨⟨g5, l5⟩, h5, hok⟩ := bind_eq_ok hok
                have hg : g5 = g' := congrArg Prod.fst (Except.ok.inj hok)
                rw [← hg]
                have hrcq : relKeeps g3 g4 := by
                  cases rcq with
                  | none =>
                      have hg4 : g3 = g4 :=
                        congrArg Prod.fst (Except.ok.inj h4)
                      rw [hg4]
                      exact relKeeps_refl g4
                  | some e =>
                      obtain ⟨⟨ga, ea⟩, ha, h4⟩ := bind_eq_ok h4
                      have hga : ga = g4 :=
                        congrArg Prod.fst (Except.ok.inj h4)
                      rw [← hga]
                      exact fixScanExprMutator_rel cat r g3 e ga ea ha
                exact relKeeps_trans
                  (setUpperReferences_rel cat g tl qual l.targetlist r g1 tl1
                    q1 h1)
                  (relKeeps_trans
                    (fixScanTargetList_rel cat r tl1 g1 g2 tl2 h2)
                    (relKeeps_trans
                      (fixScanExprMutatorList_rel cat r q1 g2 g3 q3 h3)
                      (relKeeps_trans hrcq (ihP g4 l r g5 l5 h5))))
            | none =>
                rw [setPlanRefs] at hok
                obtain ⟨⟨g1, tl1⟩, h1, hok⟩ := bind_eq_ok hok
                obtain ⟨⟨g2, q2⟩, h2, hok⟩ := bind_eq_ok hok
                obtain ⟨⟨g3, rcq3⟩, h3, hok⟩ := bind_eq_ok hok
                have hg : g3 = g' := congrArg Prod.fst (Except.ok.inj hok)
                rw [← hg]
                have hrcq : relKeeps g2 g3 := by
                  cases rcq with
                  | none =>
                      have hg3 : g2 = g3 :=
                        congrArg Prod.fst (Except.ok.inj h3)
                      rw [hg3]
                      exact relKeeps_refl g3
                  | some e =>
                      obtain ⟨⟨ga, ea⟩, ha, h3⟩ := bind_eq_ok h3
                      have hga : ga = g3 :=
                        congrArg Prod.fst (Except.ok.inj h3)
                      rw [← hga]
                      exact fixScanExprMutator_rel cat r g2 e ga ea ha
                exact relKeeps_trans
                  (fixScanTargetList_rel cat r tl g g1 tl1 h1)
                  (relKeeps_trans
                    (fixScanExprMutatorList_rel cat r qual g1 g2 q2 h2)
                    hrcq)
      · intro g plans r g' ps' hok
        cases plans with
        | nil =>
            rw [setPlanRefsList] at hok
            have hg : g = g' := congrArg Prod.fst (Except.ok.inj hok)
            rw [← hg]
            exact relKeeps_refl g
        | cons p ps =>
            rw [setPlanRefsList] at hok
            obtain ⟨⟨g1, p1⟩, h1, hok⟩ := bind_eq_ok hok
            obtain ⟨⟨g2, ps2⟩, h2, hok⟩ := bind_eq_ok hok
            have hg : g2 = g' := congrArg Prod.fst (Except.ok.inj hok)
            rw [← hg]
            exact relKeeps_trans (ihP g p r g1 p1 h1) (ihL g1 ps r g2 ps2 h2)
      · intro g plan r g' p' hok
        rw [cdbInsertResultNode] at hok
        exact ihP g _ r g' p' hok
      · intro g plan rt rm g' p' hok
        rw [setPlanReferences] at hok
        refine relKeeps_trans (flattenRtable_rel rt g) ?_
        refine relKeeps_trans ?_
          (ihP (flattenRowmarks (flattenRtable g rt) g.finalrtable.length rm)
            plan g.finalrtable.length g' p' hok)
        intro x hx
        rw [flattenRowmarks_rel]
        exact hx

/-- C2: for every successful run of the resolve entry point, every
    local range-table entry describing a base relation has its object
    identifier in the final relation-dependency set — unconditionally,
    whether or not any operator of the resolved plan references that
    entry: the flattening loop appends the OID before the plan is
    walked, and no later step of the pass removes dependency entries. -/
theorem c2_relation_dependency_superset
    (fuel : Nat) (cat : Catalog) (g : Glob) (plan : Plan)
    (rtable : List RangeTblEntry) (rms : List PlanRowMark)
    (g' : Glob) (p' : Plan)
    (hok : setPlanReferences fuel cat g plan rtable rms = .ok (g', p'))
    (rte : RangeTblEntry) (hmem : rte ∈ rtable)
    (hkind : rte.rtekind = RTEKind.relation) :
    rte.relid ∈ g'.relationOids := by
  cases fuel with
  | zero =>
      rw [setPlanReferences] at hok
      exact absurd hok (by simp)
  | succ fuel =>
      rw [setPlanReferences] at hok
      refine (setPlanRefs_rel_all fuel cat).1 _ plan _ g' p' hok rte.relid ?_
      rw [flattenRowmarks_rel]
      exact flattenRtable_mem rtable g rte hmem hkind

/-- Witness for C2 at a concrete run: two base relations are flattened, the
    plan scans only the first, yet the dependency set holds both 500 and the
    unreferenced 600. -/
theorem c2_relation_dependency_superset_witness :
    setPlanReferences 3 demoCat emptyGlob (Plan.seqScan [tleV 1 1 1] [] 1 [])
        [demoRel 500, demoRel 600] []
      = .ok ({ finalrtable := [demoRel 500, demoRel 600],
               finalrowmarks := [], relationOids := [500, 600],
               invalItems := [] },
             Plan.seqScan [tleV 1 1 1] [] 1 [])
    ∧ demoRel 600 ∈ [demoRel 500, demoRel 600]
    ∧ (demoRel 600).rtekind = RTEKind.relation
    ∧ 600 ∈ ({ finalrtable := [demoRel 500, demoRel 600],
               finalrowmarks := [], relationOids := [500, 600],
               invalItems := [] } : Glob).relationOids :=
  ⟨rfl, by simp, rfl,
    c2_relation_dependency_superset 3 demoCat emptyGlob
      (Plan.seqScan [tleV 1 1 1] [] 1 []) [demoRel 500, demoRel 600] [] _ _
      rfl (demoRel 600) (by simp) rfl⟩

end Setrefs
